import Mathlib

/-!
Verification of the `openagent` repository's core subsystems against its
natural-language specification: the SSE wire decoder (`src/http.rs`) and the
ReAct agent orchestration loop (`src/agent.rs`).

The Rust code is shallowly embedded: strings are Lean `String`s viewed as
lists of characters (Rust byte indices become character indices, which agree
on the ASCII fragment all claims live in), `serde_json::Value` becomes the
`Value` inductive with a fuel-indexed recursive-descent parser mirroring
`serde_json::from_str`, fallible operations return `Except`/`Option`, and a
Rust panic (reachable in `Agent::parse_tool_call`) is modelled as the
`Except.error` branch of the operation.  All definitions are computable and
structurally recursive so that concrete runs evaluate inside the kernel.
-/

namespace OpenAgent

/-- The Unicode `White_Space` code points: the characters trimmed by Rust's
`str::trim` and matched by `char::is_whitespace`. -/
def rustIsWhitespace (c : Char) : Bool :=
  let n := c.toNat
  n == 0x09 || n == 0x0A || n == 0x0B || n == 0x0C || n == 0x0D || n == 0x20 ||
  n == 0x85 || n == 0xA0 || n == 0x1680 ||
  (0x2000 ≤ n && n ≤ 0x200A) || n == 0x2028 || n == 0x2029 || n == 0x202F ||
  n == 0x205F || n == 0x3000

/-- Characters of a list with leading and trailing Rust whitespace removed. -/
def trimChars (cs : List Char) : List Char :=
  ((cs.dropWhile rustIsWhitespace).reverse.dropWhile rustIsWhitespace).reverse

/-- Model of Rust's `str::trim`. -/
def rustTrim (s : String) : String :=
  ⟨trimChars s.data⟩

/-- Model of Rust's `str::strip_prefix` for string patterns. -/
def stripPre (s p : String) : Option String :=
  if p.data.isPrefixOf s.data then some ⟨s.data.drop p.data.length⟩ else none

/-- Model of Rust's `str::starts_with` for string patterns. -/
def startsWithStr (s p : String) : Bool :=
  p.data.isPrefixOf s.data

/-- First index (in characters) at which `pat` occurs in the list, scanning
from offset `i`.  Mirrors Rust's `str::find(&str)` (byte index there, char
index here; the two orders agree). -/
def findSubAux (pat : List Char) : List Char → Nat → Option Nat
  | [], i => if pat.isPrefixOf [] then some i else none
  | c :: t, i => if pat.isPrefixOf (c :: t) then some i else findSubAux pat t (i + 1)

/-- Index of the first occurrence of `pat` in `s`, as `str::find`. -/
def findSubIdx (s pat : String) : Option Nat :=
  findSubAux pat.data s.data 0

/-- Model of Rust's `str::contains(&str)`. -/
def containsStr (s pat : String) : Bool :=
  (findSubIdx s pat).isSome

/-- Index of the first occurrence of character `c`, scanning from offset `i`. -/
def idxOfAux (c : Char) : List Char → Nat → Option Nat
  | [], _ => none
  | d :: t, i => if d = c then some i else idxOfAux c t (i + 1)

/-- Model of Rust's `str::find(char)`. -/
def findCharIdx (s : String) (c : Char) : Option Nat :=
  idxOfAux c s.data 0

/-- Model of Rust's `str::rfind(char)`: index of the last occurrence. -/
def rfindCharIdx (s : String) (c : Char) : Option Nat :=
  match idxOfAux c s.data.reverse 0 with
  | some i => some (s.data.length - 1 - i)
  | none => none

/-- Split on a non-empty string pattern, as Rust's `str::split(&str)`.
Fuel-indexed for structural recursion; fuel equal to the list length is
sufficient because every recursive call consumes at least one character. -/
def splitOnAux (pat : List Char) : Nat → List Char → List Char → List (List Char)
  | _, [], acc => [acc.reverse]
  | 0, cs, acc => [acc.reverse ++ cs]
  | fuel + 1, c :: t, acc =>
    if pat.isPrefixOf (c :: t) then
      acc.reverse :: splitOnAux pat fuel ((c :: t).drop pat.length) []
    else
      splitOnAux pat fuel t (c :: acc)

/-- Model of Rust's `str::split(&str)` for a non-empty pattern. -/
def splitOnStr (s pat : String) : List String :=
  (splitOnAux pat.data s.data.length s.data []).map (fun cs => ⟨cs⟩)

/-- Model of Rust's `str::lines`: split on `\n`, drop a final empty piece
produced by a trailing newline, and strip one trailing `\r` from each line. -/
def rustLines (s : String) : List String :=
  let pieces := splitOnStr s "\n"
  let pieces := if pieces.getLast? = some "" then pieces.dropLast else pieces
  pieces.map (fun l => if l.data.getLast? = some '\r' then ⟨l.data.dropLast⟩ else l)

/-- ASCII lowercase conversion of one character.  Rust's `to_lowercase` is
full Unicode; every claim here lives in the ASCII fragment, on which the two
agree character by character (and byte indices equal character indices). -/
def toLowerChar (c : Char) : Char :=
  if 65 ≤ c.toNat ∧ c.toNat ≤ 90 then Char.ofNat (c.toNat + 32) else c

/-- Character-wise lowercase of a string (model of `str::to_lowercase` on the
ASCII fragment). -/
def toLowerStr (s : String) : String :=
  ⟨s.data.map toLowerChar⟩

/-- Concatenate a list of strings (repeated `String::push_str`). -/
def joinAll : List String → String
  | [] => ""
  | s :: t => s ++ joinAll t

/-- Join strings with a `\n` separator, as the SSE decoder's multi-line
`data:` accumulation does. -/
def joinWithNl : List String → String
  | [] => ""
  | [c] => c
  | c :: t => c ++ "\n" ++ joinWithNl t

/-! ## JSON values, mirroring `serde_json::Value`

Numbers keep their source lexeme: no claim depends on numeric normalisation
and this avoids floating point.  Objects keep fields in parse order; lookup
takes the last binding of a key, matching map-insertion overwrite semantics
for duplicate keys. -/

inductive Value where
  | null
  | bool (b : Bool)
  | num (lexeme : String)
  | str (s : String)
  | arr (items : List Value)
  | obj (fields : List (String × Value))

/-- Model of `serde_json::Value::get` with a string key: field lookup on
objects, `None` on any other variant.  Last binding wins (duplicate keys
overwrite on insertion in serde's map). -/
def Value.get (v : Value) (k : String) : Option Value :=
  match v with
  | .obj fields => ((fields.reverse.find? (fun p => p.1 == k)).map (fun p => p.2))
  | _ => none

/-- Model of `serde_json::Value::get` with a numeric index: array indexing,
`None` on any other variant. -/
def Value.getIdx (v : Value) (i : Nat) : Option Value :=
  match v with
  | .arr xs => xs[i]?
  | _ => none

/-- Model of `serde_json::Value::as_str`. -/
def Value.as_str (v : Value) : Option String :=
  match v with
  | .str s => some s
  | _ => none

/-- JSON insignificant whitespace. -/
def jsonWs (c : Char) : Bool :=
  c == ' ' || c == '\t' || c == '\n' || c == '\r'

/-- Drop leading JSON whitespace. -/
def skipWs (cs : List Char) : List Char :=
  cs.dropWhile jsonWs

/-- Value of a hexadecimal digit. -/
def hexVal (c : Char) : Option Nat :=
  let n := c.toNat
  if 48 ≤ n ∧ n ≤ 57 then some (n - 48)
  else if 97 ≤ n ∧ n ≤ 102 then some (n - 87)
  else if 65 ≤ n ∧ n ≤ 70 then some (n - 55)
  else none

/-- Parse the body of a JSON string after the opening quote, returning the
decoded content and the remainder after the closing quote.  Handles the
escapes `serde_json` accepts; raw control characters are rejected as serde
does.  (Surrogate pairs decode as two code units here — no claim touches
them.) -/
def parseStrBody : Nat → List Char → List Char → Option (String × List Char)
  | 0, _, _ => none
  | fuel + 1, acc, cs =>
    match cs with
    | [] => none
    | '"' :: rest => some (⟨acc.reverse⟩, rest)
    | '\\' :: esc =>
      match esc with
      | '"' :: r => parseStrBody fuel ('"' :: acc) r
      | '\\' :: r => parseStrBody fuel ('\\' :: acc) r
      | '/' :: r => parseStrBody fuel ('/' :: acc) r
      | 'b' :: r => parseStrBody fuel (Char.ofNat 8 :: acc) r
      | 'f' :: r => parseStrBody fuel (Char.ofNat 12 :: acc) r
      | 'n' :: r => parseStrBody fuel ('\n' :: acc) r
      | 'r' :: r => parseStrBody fuel ('\r' :: acc) r
      | 't' :: r => parseStrBody fuel ('\t' :: acc) r
      | 'u' :: h1 :: h2 :: h3 :: h4 :: r =>
        match hexVal h1, hexVal h2, hexVal h3, hexVal h4 with
        | some a, some b, some c, some d =>
          parseStrBody fuel (Char.ofNat (((a * 16 + b) * 16 + c) * 16 + d) :: acc) r
        | _, _, _, _ => none
      | _ => none
    | c :: rest =>
      if c.toNat < 0x20 then none else parseStrBody fuel (c :: acc) rest

/-- Parse the integer part of a JSON number: `0` or a nonzero digit followed
by digits (leading zeros rejected, as serde does). -/
def parseIntPart : List Char → Option (List Char × List Char)
  | [] => none
  | c :: rest =>
    if c = '0' then some (['0'], rest)
    else if c.isDigit then
      some (c :: rest.takeWhile Char.isDigit, rest.dropWhile Char.isDigit)
    else none

/-- Parse an optional fraction part `.digits`. -/
def parseFracPart (cs : List Char) : Option (List Char × List Char) :=
  match cs with
  | '.' :: rest =>
    let ds := rest.takeWhile Char.isDigit
    if ds.isEmpty then none else some ('.' :: ds, rest.dropWhile Char.isDigit)
  | _ => some ([], cs)

/-- Parse an optional exponent part `e|E [+|-] digits`. -/
def parseExpPart (cs : List Char) : Option (List Char × List Char) :=
  match cs with
  | e :: rest =>
    if e = 'e' ∨ e = 'E' then
      match rest with
      | s :: rest2 =>
        if s = '+' ∨ s = '-' then
          let ds := rest2.takeWhile Char.isDigit
          if ds.isEmpty then none else some (e :: s :: ds, rest2.dropWhile Char.isDigit)
        else
          let ds := rest.takeWhile Char.isDigit
          if ds.isEmpty then none else some (e :: ds, rest.dropWhile Char.isDigit)
      | [] => none
    else some ([], cs)
  | [] => some ([], cs)

/-- Parse a JSON number, returning its lexeme and the remainder. -/
def parseNum (cs : List Char) : Option (List Char × List Char) :=
  let (sign, cs1) :=
    match cs with
    | '-' :: rest => (['-'], rest)
    | _ => ([], cs)
  match parseIntPart cs1 with
  | none => none
  | some (ip, cs2) =>
    match parseFracPart cs2 with
    | none => none
    | some (fp, cs3) =>
      match parseExpPart cs3 with
      | none => none
      | some (ep, cs4) => some (sign ++ ip ++ fp ++ ep, cs4)

mutual

/-- Recursive-descent JSON value parser mirroring `serde_json::from_str`'s
grammar, fuel-indexed for structural recursion. -/
def parseValue : Nat → List Char → Option (Value × List Char)
  | 0, _ => none
  | fuel + 1, cs =>
    match skipWs cs with
    | 'n' :: 'u' :: 'l' :: 'l' :: rest => some (.null, rest)
    | 't' :: 'r' :: 'u' :: 'e' :: rest => some (.bool true, rest)
    | 'f' :: 'a' :: 'l' :: 's' :: 'e' :: rest => some (.bool false, rest)
    | '"' :: rest =>
      match parseStrBody (rest.length + 1) [] rest with
      | some (s, r) => some (.str s, r)
      | none => none
    | '[' :: rest => parseArrTail fuel rest
    | '\x7b' :: rest => parseObjTail fuel rest
    | cs' =>
      match parseNum cs' with
      | some (lex, r) => some (.num ⟨lex⟩, r)
      | none => none

/-- Parse what follows `[`: an empty array or a comma-separated element list. -/
def parseArrTail : Nat → List Char → Option (Value × List Char)
  | 0, _ => none
  | fuel + 1, cs =>
    match skipWs cs with
    | ']' :: rest => some (.arr [], rest)
    | _ => parseArrElems fuel [] cs

/-- Parse the elements of a non-empty array. -/
def parseArrElems : Nat → List Value → List Char → Option (Value × List Char)
  | 0, _, _ => none
  | fuel + 1, acc, cs =>
    match parseValue fuel cs with
    | none => none
    | some (v, rest) =>
      match skipWs rest with
      | ',' :: rest2 => parseArrElems fuel (v :: acc) rest2
      | ']' :: rest2 => some (.arr (v :: acc).reverse, rest2)
      | _ => none

/-- Parse what follows an opening brace: an empty object or a
comma-separated field list. -/
def parseObjTail : Nat → List Char → Option (Value × List Char)
  | 0, _ => none
  | fuel + 1, cs =>
    match skipWs cs with
    | '\x7d' :: rest => some (.obj [], rest)
    | _ => parseObjFields fuel [] cs

/-- Parse the fields of a non-empty object. -/
def parseObjFields : Nat → List (String × Value) → List Char → Option (Value × List Char)
  | 0, _, _ => none
  | fuel + 1, acc, cs =>
    match skipWs cs with
    | '"' :: rest =>
      match parseStrBody (rest.length + 1) [] rest with
      | none => none
      | some (k, rest2) =>
        match skipWs rest2 with
        | ':' :: rest3 =>
          match parseValue fuel rest3 with
          | none => none
          | some (v, rest4) =>
            match skipWs rest4 with
            | ',' :: rest5 => parseObjFields fuel ((k, v) :: acc) rest5
            | '\x7d' :: rest5 => some (.obj ((k, v) :: acc).reverse, rest5)
            | _ => none
        | _ => none
    | _ => none

end

/-- Model of `serde_json::from_str::<Value>`: parse one value and require
only whitespace to follow.  The fuel `4 * length + 16` dominates the parser's
call depth, since at least one character is consumed for every constant
number of recursive calls. -/
def from_str (s : String) : Option Value :=
  match parseValue (4 * s.data.length + 16) s.data with
  | some (v, rest) => if skipWs rest = [] then some v else none
  | none => none

example : from_str "\x7b\"tool\":\"search\",\"args\":\x7b\"q\":\"x\"\x7d\x7d" =
    some (.obj [("tool", .str "search"), ("args", .obj [("q", .str "x")])]) := rfl

example : from_str " [1, true, null] " =
    some (.arr [.num "1", .bool true, .null]) := rfl

example : from_str "\x7b\"a\":" = none := rfl

/-! ## Tool calls and `Agent::parse_tool_call` (src/agent.rs)

`parse_tool_call` builds four textual candidates eagerly (a Rust array
literal evaluates every element), then tries them in order.  Building the
third candidate slices `output[start..=end]` with `start = output.find('{')`
and `end = output.rfind('}')`; when `end + 1 < start` that Rust slice
panics.  The panic is modelled as the `Except.error` branch. -/

/-- `ToolCall` from src/tool.rs: an immutable tool-invocation request. -/
structure ToolCall where
  name : String
  args : Value

/-- `ToolCallOutcome` from src/tool.rs. -/
inductive ToolCallOutcome where
  | success (result : Value)
  | error (message : String)

/-- `ToolCallResult` from src/tool.rs. -/
structure ToolCallResult where
  tool_call : ToolCall
  outcome : ToolCallOutcome

/-- `ToolCallResult::success` (src/tool.rs). -/
def ToolCallResult.success (tool : String) (args : Value) (result : Value) : ToolCallResult :=
  { tool_call := { name := tool, args := args }, outcome := .success result }

/-- `ToolCallResult::err` (src/tool.rs). -/
def ToolCallResult.err (tool : String) (args : Value) (message : String) : ToolCallResult :=
  { tool_call := { name := tool, args := args }, outcome := .error message }

/-- Model of the Rust slice `s[i..=j]`: it panics (here: errors) when
`j + 1 < i`, otherwise yields the characters from `i` through `j`. -/
def sliceInclusive (s : String) (i j : Nat) : Except String String :=
  if j + 1 < i then
    .error ("slice index starts at " ++ toString i ++ " but ends at " ++ toString (j + 1))
  else
    .ok ⟨(s.data.drop i).take (j + 1 - i)⟩

/-- Candidate (a): the full trimmed reasoning text
(`output.trim().to_string()`). -/
def candDirect (output : String) : String :=
  rustTrim output

/-- Candidate (b): the trimmed content of the first ```` ```json ````-fenced
block (`output.split("```json").nth(1).and_then(|s| s.split("```").next())`),
or the empty string. -/
def candFenced (output : String) : String :=
  match (splitOnStr output "```json").get? 1 with
  | some second =>
    match (splitOnStr second "```").head? with
    | some piece => rustTrim piece
    | none => ""
  | none => ""

/-- Candidate (c): the substring from the first `{` to the last `}`
(`output.find('{').and_then(|start| output.rfind('}').map(|end|
output[start..=end].to_string()))`), or the empty string.  The slice panics
when the last `}` lies more than one position before the first `{`. -/
def candBraces (output : String) : Except String String :=
  match findCharIdx output '\x7b', rfindCharIdx output '\x7d' with
  | some i, some j => sliceInclusive output i j
  | _, _ => .ok ""

/-- Candidate (d): the trimmed text after `Action Input:` on the first line
whose trimmed form starts with that marker, or the empty string. -/
def candAction (output : String) : String :=
  match (rustLines output).find? (fun l => startsWithStr (rustTrim l) "Action Input:") with
  | none => ""
  | some line =>
    match (splitOnStr line "Action Input:").get? 1 with
    | some rest => rustTrim rest
    | none => ""

/-- One loop iteration of `parse_tool_call`: skip empty candidates; parse as
JSON; accept when the value has a string field `tool`, taking `args` (or
`Null` when absent) as the arguments. -/
def tryCandidate (c : String) : Option ToolCall :=
  if c = "" then none
  else
    match from_str c with
    | none => none
    | some v =>
      match v.get "tool" with
      | some (.str t) => some { name := t, args := (v.get "args").getD .null }
      | _ => none

/-- Try candidates in order, returning the first successful parse. -/
def firstToolCall : List String → Option ToolCall
  | [] => none
  | c :: rest =>
    match tryCandidate c with
    | some tc => some tc
    | none => firstToolCall rest

/-- `Agent::parse_tool_call` (src/agent.rs): build the four candidates
eagerly — the brace candidate may panic, modelled as `Except.error` — then
return the first candidate that parses as a JSON object with a string
`tool` field, or `none`. -/
def parse_tool_call (output : String) : Except String (Option ToolCall) :=
  match candBraces output with
  | .error e => .error e
  | .ok braces =>
    .ok (firstToolCall [candDirect output, candFenced output, braces, candAction output])

/-- `extract_final_answer` (src/agent.rs): find the case-insensitive marker
`final answer:`, take the trimmed text after it, and return it when
non-empty. -/
def extract_final_answer (text : String) : Option String :=
  match findSubIdx (toLowerStr text) "final answer:" with
  | some pos =>
    let answer := rustTrim ⟨text.data.drop (pos + "final answer:".data.length)⟩
    if answer = "" then none else some answer
  | none => none

example : parse_tool_call "```json\n\x7b\"tool\":\"search\",\"args\":\x7b\"q\":\"x\"\x7d\x7d\n```" =
    .ok (some { name := "search", args := .obj [("q", .str "x")] }) := rfl

example : (parse_tool_call "\x7d \x7b").isOk = false := rfl

example : parse_tool_call "no json here at all" = .ok none := rfl

example : extract_final_answer "... Final Answer: 42" = some "42" := rfl

example : extract_final_answer "Final Answer:   " = none := rfl

/-! ## The SSE decoder (`<Sse as Stream>::poll_next`, src/http.rs)

The decoder is a per-line state machine over the lines produced by the
framer.  We model the handler capability as three pure functions, the
decoder state as a record, and the whole (fully drained) item sequence as a
trace that also records every handler invocation, so that claims about
"`handle_data` is called exactly once" are directly statable. -/

/-- The `EventHandler` capability (src/http.rs), for an event type `E`. -/
structure EventHandler (E : Type) where
  handle_event : String → Except String Unit
  handle_data : String → Except String E
  handle_unexpected : String → Except String Unit

/-- The mutable decode state of `Sse` (src/http.rs): current event type and
last event id (`last_event`), the `data` payload buffer, and the
`unexpected` buffer for non-protocol lines. -/
structure SseState where
  eventType : Option String
  eventId : Option String
  data : String
  unexpected : String
deriving DecidableEq, Repr

/-- The fresh decoder state (all buffers empty, as `Api::sse` builds it). -/
def SseState.init : SseState :=
  { eventType := none, eventId := none, data := "", unexpected := "" }

/-- What one processed line does: nothing observable, emit one item, or
terminate the sequence (the `[DONE]` sentinel). -/
inductive LineEffect (E : Type) where
  | nothing
  | emit (item : Except String E)
  | terminate

/-- A recorded handler invocation. -/
inductive HandlerCall where
  | data (payload : String)
  | event (name : String)
  | unexpected (content : String)
deriving DecidableEq, Repr

/-- One line of `poll_next`'s loop body (src/http.rs lines 410-474): trim the
line, then dispatch on the SSE field prefixes in the source's order.
Returns the effect, the successor state, and the handler call made, if any. -/
def sseLine (h : EventHandler E) (dropEvent : Bool) (st : SseState) (rawLine : String) :
    LineEffect E × SseState × Option HandlerCall :=
  let line := rustTrim rawLine
  if line = "" then
    if st.data ≠ "" then
      ( .emit (h.handle_data st.data),
        { st with data := "", eventType := none },
        some (.data st.data) )
    else
      (.nothing, st, none)
  else
    match stripPre line "data: " with
    | some chunk =>
      if chunk = "[DONE]" then
        (.terminate, st, none)
      else
        ( .nothing,
          { st with data := if st.data = "" then chunk else st.data ++ "\n" ++ chunk },
          none )
    | none =>
      match stripPre line "event: " with
      | some ev =>
        if dropEvent then
          (.nothing, st, none)
        else
          let st' := { st with eventType := some ev }
          match h.handle_event ev with
          | .error e => (.emit (.error e), st', some (.event ev))
          | .ok _ => (.nothing, st', some (.event ev))
      | none =>
        match stripPre line "id: " with
        | some eid => (.nothing, { st with eventId := some eid }, none)
        | none =>
          match stripPre line "retry: " with
          | some _ => (.nothing, st, none)
          | none =>
            if startsWithStr line ":" then
              (.nothing, st, none)
            else
              ( .nothing,
                { st with unexpected :=
                    if st.unexpected = "" then line else st.unexpected ++ "\n" ++ line },
                none )

/-- The observable behaviour of one decoder drained to completion: the items
it yields, the handler calls it makes, the state at the moment processing
stopped (before any end-of-input flush), and whether it stopped because of
the `[DONE]` sentinel. -/
structure SseTrace (E : Type) where
  items : List (Except String E)
  calls : List HandlerCall
  finalState : SseState
  sentinel : Bool

/-- Drain the decoder over a list of framer results (`Ok` line or transport
error).  A transport error is yielded as an error item and processing
continues on the next poll; the sentinel ends the sequence at once; at
end-of-input a non-empty `unexpected` buffer is flushed to
`handle_unexpected` exactly once, surfacing a handler error as a final
error item. -/
def sseRun (h : EventHandler E) (dropEvent : Bool) :
    SseState → List (Except String String) → SseTrace E
  | st, [] =>
    if st.unexpected ≠ "" then
      match h.handle_unexpected st.unexpected with
      | .error e =>
        { items := [.error e], calls := [.unexpected st.unexpected],
          finalState := st, sentinel := false }
      | .ok _ =>
        { items := [], calls := [.unexpected st.unexpected],
          finalState := st, sentinel := false }
    else
      { items := [], calls := [], finalState := st, sentinel := false }
  | st, .error e :: rest =>
    let t := sseRun h dropEvent st rest
    { t with items := .error e :: t.items }
  | st, .ok line :: rest =>
    match sseLine h dropEvent st line with
    | (.terminate, st', _) =>
      { items := [], calls := [], finalState := st', sentinel := true }
    | (.emit x, st', call?) =>
      let t := sseRun h dropEvent st' rest
      { t with items := x :: t.items, calls := call?.toList ++ t.calls }
    | (.nothing, st', call?) =>
      let t := sseRun h dropEvent st' rest
      { t with calls := call?.toList ++ t.calls }

/-- The `data:` payloads passed to `handle_data` during a drain. -/
def SseTrace.dataCalls (t : SseTrace E) : List String :=
  t.calls.filterMap (fun c => match c with | .data s => some s | _ => none)

/-- The contents passed to `handle_unexpected` during a drain. -/
def SseTrace.unexpectedCalls (t : SseTrace E) : List String :=
  t.calls.filterMap (fun c => match c with | .unexpected s => some s | _ => none)

/-- A framer result whose trimmed line is the terminal sentinel. -/
def isSentinel : Except String String → Bool
  | .ok line => rustTrim line = "data: [DONE]"
  | .error _ => false

/-- The identity string handler (the `impl EventHandler for ()` in
src/http.rs): `handle_data` returns the payload, the other two default to
`Ok`). -/
def unitHandler : EventHandler String :=
  { handle_event := fun _ => .ok ()
    handle_data := fun d => .ok d
    handle_unexpected := fun _ => .ok () }

example :
    (sseRun unitHandler false .init
      [.ok "data: a", .ok "data: b", .ok "", .ok "data: c", .ok ""]).items =
    [.ok "a\nb", .ok "c"] := rfl

example :
    (sseRun unitHandler false .init
      [.ok "data: a", .ok "data: [DONE]", .ok "data: c", .ok ""]).items = [] := rfl

example :
    (sseRun unitHandler false .init [.ok "oops not sse"]).unexpectedCalls =
    ["oops not sse"] := rfl

/-! ## The agent orchestrator (src/agent.rs)

The run loop `run_agent_stream` is embedded as a fuel-indexed recursion:
the fuel is the number of remaining loop iterations (`max_steps` at entry)
and the step index counts up, exactly as `for step in 0..max_steps`.

External effects are oracles: the reasoning service is a function from the
step index to the result of establishing the completion stream — either a
transport error (the `?` on `completion_stream`) or the list of SSE items
the stream then yields; the per-call tool timeout is a boolean oracle per
step (the timeout race is resolved before the call in this model).  Wall
clock values (`Instant`, `Duration`) are outside the embedding, so the
`duration` payload of events and `start/end_time` of the metadata are
omitted; both counters of `AgentMetadata` are kept.  A panic inside
`parse_tool_call` aborts the spawned task; the trace records it as the
`panicked` outcome with the events emitted up to that point. -/

/-- Display of a JSON value, mirroring `serde_json`'s compact `Display`
(used when the prompt interpolates `{args}` and `{result}`). -/
def escapeJsonChar (c : Char) : List Char :=
  if c = '"' then ['\\', '"']
  else if c = '\\' then ['\\', '\\']
  else if c = '\n' then ['\\', 'n']
  else if c = '\r' then ['\\', 'r']
  else if c = '\t' then ['\\', 't']
  else if c.toNat = 8 then ['\\', 'b']
  else if c.toNat = 12 then ['\\', 'f']
  else if c.toNat < 0x20 then
    ['\\', 'u', '0', '0',
     (Nat.toDigits 16 c.toNat).headD '0',
     (Nat.toDigits 16 (c.toNat % 16)).headD '0']
  else [c]

/-- JSON string quoting for `Value` display. -/
def quoteJson (s : String) : String :=
  "\"" ++ ⟨(s.data.map escapeJsonChar).flatten⟩ ++ "\""

mutual

/-- Compact rendering of a `Value`, as `serde_json::Value`'s `Display`. -/
def Value.display : Value → String
  | .null => "null"
  | .bool true => "true"
  | .bool false => "false"
  | .num lexeme => lexeme
  | .str s => quoteJson s
  | .arr items => "[" ++ displayItems items ++ "]"
  | .obj fields => "\x7b" ++ displayFields fields ++ "\x7d"

/-- Comma-separated rendering of array elements. -/
def displayItems : List Value → String
  | [] => ""
  | [v] => v.display
  | v :: rest => v.display ++ "," ++ displayItems rest

/-- Comma-separated rendering of object fields. -/
def displayFields : List (String × Value) → String
  | [] => ""
  | [(k, v)] => quoteJson k ++ ":" ++ v.display
  | (k, v) :: rest => quoteJson k ++ ":" ++ v.display ++ "," ++ displayFields rest

end

/-- `AgentMetadata` (src/agent.rs), restricted to its logical counters: the
wall-clock fields (`start_time`, `end_time`, `duration_ms`) are outside the
embedding. -/
structure AgentMetadata where
  total_steps : Nat
  tool_calls_count : Nat
deriving DecidableEq, Repr

/-- `AgentState` (src/agent.rs). -/
structure AgentState where
  input : String
  memory : List (String × String)
  reasoning_steps : List String
  tool_calls : List ToolCallResult
  metadata : AgentMetadata

/-- `AgentState::new`. -/
def AgentState.new (input : String) : AgentState :=
  { input := input, memory := [], reasoning_steps := [], tool_calls := [],
    metadata := { total_steps := 0, tool_calls_count := 0 } }

/-- `AgentState::add_step`: append the reasoning text and bump
`total_steps`. -/
def AgentState.add_step (st : AgentState) (reasoning : String) : AgentState :=
  { st with
    reasoning_steps := st.reasoning_steps ++ [reasoning]
    metadata := { st.metadata with total_steps := st.metadata.total_steps + 1 } }

/-- `AgentState::add_tool_call`: append the result and bump
`tool_calls_count`. -/
def AgentState.add_tool_call (st : AgentState) (result : ToolCallResult) : AgentState :=
  { st with
    tool_calls := st.tool_calls ++ [result]
    metadata := { st.metadata with tool_calls_count := st.metadata.tool_calls_count + 1 } }

/-- `AgentState::is_complete`: some recorded step contains the
case-insensitive final-answer marker. -/
def AgentState.is_complete (st : AgentState) : Bool :=
  st.reasoning_steps.any (fun step => containsStr (toLowerStr step) "final answer:")

/-- `Agent::build_prompt`'s per-step history entry: the thought line plus,
when a tool call exists at the same index, its action, input and
observation (or error) lines. -/
def promptEntry (tool_calls : List ToolCallResult) (i : Nat) (step : String) : String :=
  "Thought " ++ toString (i + 1) ++ ": " ++ step ++ "\n" ++
  match tool_calls[i]? with
  | none => ""
  | some tcr =>
    "Action: " ++ tcr.tool_call.name ++ "\n" ++
    "Action Input: " ++ tcr.tool_call.args.display ++ "\n" ++
    (match tcr.outcome with
     | .success r => "Observation: " ++ r.display ++ "\n"
     | .error m => "Error: " ++ m ++ "\n") ++ "\n"

/-- `Agent::build_prompt` (src/agent.rs): the question, the enumerated
history, and the next thought prompt. -/
def build_prompt (st : AgentState) : String :=
  "Question: " ++ st.input ++ "\n\n" ++
  joinAll (st.reasoning_steps.enum.map (fun p => promptEntry st.tool_calls p.1 p.2)) ++
  "Thought " ++ toString (st.reasoning_steps.length + 1) ++ ": "

/-- `AgentEvent` (src/agent.rs).  The `duration` payload of `completed` and
the wall-clock part of `metadata` are omitted (real time is outside the
embedding). -/
inductive AgentEvent where
  | reasoningToken (content : String)
  | reasoningStepDone (content : String)
  | toolCall (name : String) (args : Value)
  | toolResult (name : String) (result : Value) (is_streaming : Option Bool)
  | finalAnswer (content : String)
  | error (message : String)
  | metadata (total_steps : Nat) (tool_calls_count : Nat)
  | started (max_steps : Nat) (tools : List String)
  | completed (success : Bool) (total_steps : Nat)

/-- A registered tool's behaviour (the `Tool` capability of src/tool.rs):
whether it claims streaming support, its streaming path (a chunk list or an
error) and its synchronous path. -/
structure ToolModel where
  supports_stream : Bool
  call_stream : Value → Except String (List String)
  call : Value → Except String Value

/-- The agent configuration: `AgentOptions` plus the immutable registry.
`temperature` and `max_completion_tokens` only parameterise the outbound
request and are not modelled. -/
structure AgentCfg where
  max_steps : Nat
  timeout_secs : Nat
  tools : List (String × ToolModel)

/-- `Agent::find_tool`: registry lookup by name. -/
def findTool (tools : List (String × ToolModel)) (name : String) : Option ToolModel :=
  (tools.find? (fun p => p.1 == name)).map (fun p => p.2)

/-- Display of `ToolError::Unknown` (src/error.rs). -/
def unknownToolMsg (name : String) : String :=
  "unknown tool: " ++ name

/-- Display of `Error::Timeout` (src/error.rs), for a whole-second timeout. -/
def timeoutMsg (secs : Nat) : String :=
  "timeout after " ++ toString secs ++ "s"

/-- Display of `AgentError::MaxStepsExceeded` (src/error.rs). -/
def maxStepsMsg (n : Nat) : String :=
  "maximum steps " ++ toString n ++ " reached without final answer"

/-- The synchronous fallback path of `Agent::call_tool`: on success emit a
non-streaming `toolResult` event and return a success result; on failure
return the error (the loop, not `call_tool`, emits the error event). -/
def syncCall (tc : ToolCall) (tool : ToolModel) :
    List AgentEvent × Except String ToolCallResult :=
  match tool.call tc.args with
  | .ok result =>
    ([.toolResult tc.name result (some false)],
     .ok (ToolCallResult.success tc.name tc.args result))
  | .error e => ([], .error e)

/-- `Agent::call_tool` (src/agent.rs): unknown names emit an error event and
fail; a streaming-capable tool streams chunks (each emitted as a streaming
`toolResult` event, all concatenated into the success value), falling back
to the synchronous path — after emitting an error event — when the
streaming call fails. -/
def call_tool (tools : List (String × ToolModel)) (tc : ToolCall) :
    List AgentEvent × Except String ToolCallResult :=
  match findTool tools tc.name with
  | none => ([.error (unknownToolMsg tc.name)], .error (unknownToolMsg tc.name))
  | some tool =>
    if tool.supports_stream then
      match tool.call_stream tc.args with
      | .ok chunks =>
        (chunks.map (fun c => .toolResult tc.name (.str c) (some true)),
         .ok (ToolCallResult.success tc.name tc.args (.str (joinAll chunks))))
      | .error e =>
        let (evs, res) := syncCall tc tool
        (.error e :: evs, res)
    else syncCall tc tool

/-- `Agent::call_tool_with_timeout`: the per-call timeout, resolved by the
oracle before the call in this model; when it fires the call yields
`Error::Timeout`. -/
def call_tool_with_timeout (cfg : AgentCfg) (timedOut : Bool) (tc : ToolCall) :
    List AgentEvent × Except String ToolCallResult :=
  if timedOut then ([], .error (timeoutMsg cfg.timeout_secs))
  else call_tool cfg.tools tc

/-- Extraction of one reasoning token from an SSE `data:` payload
(src/agent.rs lines 104-114): parse as JSON and take
`choices[0].delta.content` as a string; anything else yields no token. -/
def extractToken (data : String) : Option String :=
  (((((from_str data).bind (fun v => v.get "choices")).bind (fun v => v.getIdx 0)).bind
    (fun v => v.get "delta")).bind (fun v => v.get "content")).bind (fun v => v.as_str)

/-- The token sequence of one reasoning phase: `filter_map` over the SSE
items — transport errors are logged and dropped (`Err(e) => None`), data
payloads go through `extractToken`. -/
def reasoningTokens (items : List (Except String String)) : List String :=
  items.filterMap (fun it =>
    match it with
    | .ok d => extractToken d
    | .error _ => none)

/-- The run's external world: per loop step, the result of establishing the
reasoning stream (error, or the SSE items it yields), and whether the tool
call of that step hits its timeout. -/
structure RunEnv where
  sse : Nat → Except String (List (Except String String))
  timedOut : Nat → Bool

/-- How a run ends: a returned `Result` or a panic inside the task. -/
inductive RunOutcome where
  | done (res : Except String Unit)
  | panicked

/-- One loop iteration's effect: halt the run or continue to the next
iteration, in both cases with the emitted events and the updated state. -/
inductive IterResult where
  | halt (events : List AgentEvent) (st : AgentState) (out : RunOutcome)
  | next (events : List AgentEvent) (st : AgentState)

/-- The observable behaviour of a whole run: the events it emitted in
order, the final state, and its outcome. -/
structure RunTrace where
  events : List AgentEvent
  state : AgentState
  outcome : RunOutcome

/-- The tool-dispatch tail of a loop iteration (src/agent.rs lines
1004-1036): parse a tool call from the reasoning text — a panic in
`parse_tool_call` kills the task — then, if one was requested, emit a
`toolCall` event, execute under timeout, record success or error in the
state, and in either case continue with a `metadata` event. -/
def runTools (cfg : AgentCfg) (env : RunEnv) (step : Nat) (st1 : AgentState)
    (evs1 : List AgentEvent) (full : String) : IterResult :=
  match parse_tool_call full with
  | .error _ => .halt evs1 st1 .panicked
  | .ok none =>
    .next (evs1 ++ [.metadata st1.metadata.total_steps st1.metadata.tool_calls_count]) st1
  | .ok (some tc) =>
    let evs2 := evs1 ++ [.toolCall tc.name tc.args]
    match call_tool_with_timeout cfg (env.timedOut step) tc with
    | (tevs, .ok result) =>
      let st2 := st1.add_tool_call result
      .next (evs2 ++ tevs ++
        [.metadata st2.metadata.total_steps st2.metadata.tool_calls_count]) st2
    | (tevs, .error e) =>
      let st2 := st1.add_tool_call (ToolCallResult.err tc.name tc.args e)
      .next (evs2 ++ tevs ++
        [.error e, .metadata st2.metadata.total_steps st2.metadata.tool_calls_count]) st2

/-- The reasoning phase of a loop iteration (src/agent.rs lines 945-1055):
a failure establishing the stream is fatal (error event, failed-completion
event, error returned); otherwise tokens are collected (each forwarded as a
`reasoningToken` event), an all-whitespace text skips to the next iteration,
and a recorded step is checked for the final-answer marker before tool
dispatch. -/
def runReason (cfg : AgentCfg) (env : RunEnv) (step : Nat) (st : AgentState) : IterResult :=
  match env.sse step with
  | .error e =>
    .halt [.error e, .completed false st.metadata.total_steps] st (.done (.error e))
  | .ok items =>
    let tokens := reasoningTokens items
    let tokenEvs := tokens.map AgentEvent.reasoningToken
    let full := joinAll tokens
    if rustTrim full = "" then
      .next tokenEvs st
    else
      let st1 := st.add_step full
      let evs1 := tokenEvs ++ [.reasoningStepDone full]
      if containsStr (toLowerStr full) "final answer:" then
        match extract_final_answer full with
        | some ans =>
          .halt (evs1 ++ [.finalAnswer ans, .completed true st1.metadata.total_steps]) st1
            (.done (.ok ()))
        | none => runTools cfg env step st1 evs1 full
      else runTools cfg env step st1 evs1 full

/-- One full loop iteration (src/agent.rs lines 926-1058), beginning with
the completion check: when some earlier step contains the marker and the
last step yields an extractable answer, the run finishes successfully
before reasoning again. -/
def runIter (cfg : AgentCfg) (env : RunEnv) (step : Nat) (st : AgentState) : IterResult :=
  if st.is_complete then
    match extract_final_answer ((st.reasoning_steps.getLast?).getD "") with
    | some answer =>
      .halt [.finalAnswer answer, .completed true st.metadata.total_steps] st (.done (.ok ()))
    | none => runReason cfg env step st
  else runReason cfg env step st

/-- The bounded loop of `run_agent_stream`: `fuel` iterations remain; when
it runs out the run ends with the max-steps error event and a failed
completion event (a normal `Ok` return). -/
def runLoop (cfg : AgentCfg) (env : RunEnv) : Nat → Nat → AgentState → RunTrace
  | 0, _, st =>
    { events := [.error (maxStepsMsg cfg.max_steps), .completed false st.metadata.total_steps],
      state := st, outcome := .done (.ok ()) }
  | fuel + 1, step, st =>
    match runIter cfg env step st with
    | .halt evs st' out => { events := evs, state := st', outcome := out }
    | .next evs st' =>
      let t := runLoop cfg env fuel (step + 1) st'
      { t with events := evs ++ t.events }

/-- `run_agent_stream` (src/agent.rs): emit the `started` event, then run
the loop for at most `max_steps` iterations from step 0. -/
def run_agent_stream (cfg : AgentCfg) (env : RunEnv) (st : AgentState) : RunTrace :=
  let t := runLoop cfg env cfg.max_steps 0 st
  { t with events := .started cfg.max_steps (cfg.tools.map (fun p => p.1)) :: t.events }

/-- A one-token OpenAI-style streaming delta payload carrying `s` (which
must need no JSON escaping). -/
def deltaJson (s : String) : String :=
  "\x7b\"choices\":[\x7b\"delta\":\x7b\"content\":\"" ++ s ++ "\"\x7d\x7d]\x7d"

example : extractToken (deltaJson "Final Answer: 42") = some "Final Answer: 42" := rfl

example :
    (run_agent_stream { max_steps := 3, timeout_secs := 300, tools := [] }
      { sse := fun _ => .ok [.ok (deltaJson "Final Answer: 42")], timedOut := fun _ => false }
      (AgentState.new "q")).events =
    [.started 3 [], .reasoningToken "Final Answer: 42",
     .reasoningStepDone "Final Answer: 42", .finalAnswer "42", .completed true 1] := rfl

example :
    (run_agent_stream { max_steps := 1, timeout_secs := 300, tools := [] }
      { sse := fun _ => .ok [.ok (deltaJson "thinking...")], timedOut := fun _ => false }
      (AgentState.new "q")).events =
    [.started 1 [], .reasoningToken "thinking...", .reasoningStepDone "thinking...",
     .metadata 1 0, .error (maxStepsMsg 1), .completed false 1] := rfl

/-! ## General lemmas about the string helpers -/

theorem stripPre_append (p r : String) : stripPre (p ++ r) p = some r := by
  unfold stripPre
  have hpre : p.data.isPrefixOf (p ++ r).data = true := by
    rw [String.data_append, List.isPrefixOf_iff_prefix]
    exact ⟨r.data, rfl⟩
  rw [hpre]
  simp only [if_true]
  congr 1
  apply String.ext
  rw [String.data_append, List.drop_left]

theorem stripPre_eq_some {s p r : String} (h : stripPre s p = some r) : s = p ++ r := by
  unfold stripPre at h
  by_cases hpre : p.data.isPrefixOf s.data
  · rw [if_pos hpre] at h
    obtain ⟨t, ht⟩ := List.isPrefixOf_iff_prefix.mp hpre
    have hr : r = ⟨s.data.drop p.data.length⟩ := by
      injection h with h'
      exact h'.symm
    apply String.ext
    rw [String.data_append, hr]
    show s.data = p.data ++ s.data.drop p.data.length
    rw [← ht, List.drop_left]
  · rw [if_neg hpre] at h
    exact absurd h (by simp)

theorem string_append_ne_empty_of_ne (p r : String) (hp : p.data ≠ []) : p ++ r ≠ "" := by
  intro h
  have := congrArg String.data h
  rw [String.data_append] at this
  have : p.data ++ r.data = [] := this
  rcases List.append_eq_nil.mp this with ⟨h1, _⟩
  exact hp h1

theorem findSubAux_nil (pat : List Char) (i : Nat) :
    findSubAux pat [] i = if pat.isPrefixOf [] then some i else none := rfl

theorem findSubAux_cons (pat : List Char) (c : Char) (t : List Char) (i : Nat) :
    findSubAux pat (c :: t) i =
      if pat.isPrefixOf (c :: t) then some i else findSubAux pat t (i + 1) := rfl

theorem findSubAux_of_isPrefixOf (pat cs : List Char) (i : Nat)
    (h : pat.isPrefixOf cs = true) : findSubAux pat cs i = some i := by
  cases cs with
  | nil => rw [findSubAux_nil, if_pos h]
  | cons c t => rw [findSubAux_cons, if_pos h]

theorem findSubAux_parts (pat : List Char) :
    ∀ (a : List Char) (b : List Char) (i : Nat),
      (findSubAux pat (a ++ pat ++ b) i).isSome = true := by
  intro a
  induction a with
  | nil =>
    intro b i
    have hpre : pat.isPrefixOf (pat ++ b) = true :=
      List.isPrefixOf_iff_prefix.mpr ⟨b, rfl⟩
    simp only [List.nil_append]
    rw [findSubAux_of_isPrefixOf pat (pat ++ b) i hpre]
    rfl
  | cons c a ih =>
    intro b i
    show (findSubAux pat (c :: (a ++ pat ++ b)) i).isSome = true
    rw [findSubAux_cons]
    by_cases hp : pat.isPrefixOf (c :: (a ++ pat ++ b)) = true
    · rw [if_pos hp]
      rfl
    · rw [if_neg hp]
      exact ih b (i + 1)

theorem containsStr_of_parts (a m b : String) : containsStr (a ++ (m ++ b)) m = true := by
  unfold containsStr findSubIdx
  have : (a ++ (m ++ b)).data = a.data ++ m.data ++ b.data := by
    rw [String.data_append, String.data_append, List.append_assoc]
  rw [this]
  exact findSubAux_parts m.data a.data b.data 0

theorem findSubAux_infix (pat : List Char) :
    ∀ (cs : List Char) (i j : Nat), findSubAux pat cs i = some j →
      ∃ a b, cs = a ++ pat ++ b := by
  intro cs
  induction cs with
  | nil =>
    intro i j h
    unfold findSubAux at h
    by_cases hp : pat.isPrefixOf ([] : List Char)
    · have : pat = [] := by
        cases pat with
        | nil => rfl
        | cons c t => simp [List.isPrefixOf] at hp
      exact ⟨[], [], by simp [this]⟩
    · simp [hp] at h
  | cons c t ih =>
    intro i j h
    unfold findSubAux at h
    by_cases hp : pat.isPrefixOf (c :: t)
    · obtain ⟨r, hr⟩ := List.isPrefixOf_iff_prefix.mp hp
      exact ⟨[], r, by simp [← hr]⟩
    · simp only [hp, if_false, Bool.false_eq_true] at h
      obtain ⟨a, b, hab⟩ := ih (i + 1) j h
      exact ⟨c :: a, b, by simp [hab]⟩

theorem trimChars_eq_nil {cs : List Char} (h : trimChars cs = []) :
    ∀ c ∈ cs, rustIsWhitespace c = true := by
  unfold trimChars at h
  have h2 : (cs.dropWhile rustIsWhitespace).reverse.dropWhile rustIsWhitespace = [] := by
    have := congrArg List.reverse h
    simpa using this
  have h3 : ∀ c ∈ (cs.dropWhile rustIsWhitespace).reverse, rustIsWhitespace c = true :=
    List.dropWhile_eq_nil_iff.mp h2
  have h4 : ∀ c ∈ cs.dropWhile rustIsWhitespace, rustIsWhitespace c = true := by
    intro c hc
    exact h3 c (List.mem_reverse.mpr hc)
  intro c hc
  rw [← List.takeWhile_append_dropWhile rustIsWhitespace cs] at hc
  rcases List.mem_append.mp hc with h5 | h5
  · exact List.mem_takeWhile_imp h5
  · exact h4 c h5

theorem ws_toLowerChar {c : Char} (h : rustIsWhitespace c = true) : toLowerChar c = c := by
  unfold toLowerChar
  have : ¬(65 ≤ c.toNat ∧ c.toNat ≤ 90) := by
    intro ⟨h1, h2⟩
    unfold rustIsWhitespace at h
    simp only [Bool.or_eq_true, beq_iff_eq, Bool.and_eq_true, decide_eq_true_eq] at h
    omega
  rw [if_neg this]

/-- A well-formed payload chunk for a `data: ` line: prepending the field
prefix is trim-stable (so the decoder recovers exactly the chunk) and it is
not the terminal sentinel. -/
def goodChunk (c : String) : Prop :=
  rustTrim ("data: " ++ c) = "data: " ++ c ∧ c ≠ "[DONE]"

instance (c : String) : Decidable (goodChunk c) := by
  unfold goodChunk
  infer_instance

/-- If the lower-cased text contains the final-answer marker then the text is
not all whitespace — so it survives the run loop's emptiness check. -/
theorem trim_ne_of_contains_marker {s : String}
    (h : containsStr (toLowerStr s) "final answer:" = true) : rustTrim s ≠ "" := by
  intro htrim
  have hall : ∀ c ∈ s.data, rustIsWhitespace c = true := by
    have : trimChars s.data = [] := by
      have := congrArg String.data htrim
      exact this
    exact trimChars_eq_nil this
  unfold containsStr findSubIdx at h
  rw [Option.isSome_iff_exists] at h
  obtain ⟨j, hj⟩ := h
  obtain ⟨a, b, hab⟩ := findSubAux_infix _ _ 0 j hj
  have hf : 'f' ∈ (toLowerStr s).data := by
    rw [hab]
    have : 'f' ∈ "final answer:".data := by decide
    simp [this]
  unfold toLowerStr at hf
  simp only [List.mem_map] at hf
  obtain ⟨c, hc, hlc⟩ := hf
  have hws := hall c hc
  rw [ws_toLowerChar hws] at hlc
  subst hlc
  simp [rustIsWhitespace] at hws

/-! ## Lemmas about the SSE decoder -/

theorem sseLine_data (h : EventHandler E) (de : Bool) (st : SseState) (c : String)
    (hc : rustTrim ("data: " ++ c) = "data: " ++ c) (hne : c ≠ "[DONE]") :
    sseLine h de st ("data: " ++ c) =
      (.nothing, { st with data := if st.data = "" then c else st.data ++ "\n" ++ c },
       none) := by
  unfold sseLine
  simp only [hc]
  rw [if_neg (string_append_ne_empty_of_ne "data: " c (by decide))]
  rw [stripPre_append]
  simp only []
  rw [if_neg hne]

theorem sseLine_blank_flush (h : EventHandler E) (de : Bool) (st : SseState)
    (hd : st.data ≠ "") :
    sseLine h de st "" =
      (.emit (h.handle_data st.data), { st with data := "", eventType := none },
       some (.data st.data)) := by
  unfold sseLine
  have htrim : rustTrim "" = "" := rfl
  simp only [htrim]
  rw [if_pos trivial, if_pos hd]

theorem sseLine_blank_noop (h : EventHandler E) (de : Bool) (st : SseState)
    (hd : st.data = "") :
    sseLine h de st "" = (.nothing, st, none) := by
  unfold sseLine
  have htrim : rustTrim "" = "" := rfl
  simp only [htrim]
  rw [if_pos trivial, if_neg (by simp [hd])]

theorem sseLine_sentinel (h : EventHandler E) (de : Bool) (st : SseState) (l : String)
    (hl : rustTrim l = "data: [DONE]") :
    sseLine h de st l = (.terminate, st, none) := by
  unfold sseLine
  simp only [hl]
  rfl

theorem sseLine_event (h : EventHandler E) (st : SseState) (ev : String)
    (he : rustTrim ("event: " ++ ev) = "event: " ++ ev) :
    sseLine h false st ("event: " ++ ev) =
      match h.handle_event ev with
      | .error e => (.emit (.error e), { st with eventType := some ev }, some (.event ev))
      | .ok _ => (.nothing, { st with eventType := some ev }, some (.event ev)) := by
  unfold sseLine
  simp only [he]
  rw [if_neg (string_append_ne_empty_of_ne "event: " ev (by decide))]
  have hdata : stripPre ("event: " ++ ev) "data: " = none := by
    unfold stripPre
    rw [if_neg]
    intro hpre
    obtain ⟨t, ht⟩ := List.isPrefixOf_iff_prefix.mp hpre
    rw [String.data_append] at ht
    have h1 : "event: ".data = 'e' :: "vent: ".data := rfl
    have h2 : "data: ".data = 'd' :: "ata: ".data := rfl
    rw [h1, h2] at ht
    exact absurd (List.head_eq_of_cons_eq ht) (by decide)
  rw [hdata]
  simp only []
  rw [stripPre_append]
  simp only [Bool.false_eq_true, if_false]

theorem string_ne_empty_iff (s : String) : s ≠ "" ↔ s.data ≠ [] := by
  constructor
  · intro h hc
    exact h (String.ext hc)
  · intro h hc
    exact h (congrArg String.data hc)

theorem append_ne_empty_left {s : String} (t : String) (h : s ≠ "") : s ++ t ≠ "" :=
  string_append_ne_empty_of_ne s t ((string_ne_empty_iff s).mp h)

theorem goodChunk_ne_empty {c : String} (h : goodChunk c) : c ≠ "" := by
  intro hc
  subst hc
  have h1 := h.1
  have : ("data: " ++ "" : String) = "data: " := rfl
  rw [this] at h1
  exact absurd h1 (by decide)

/-- Tail of a `\n`-join: what accumulating appends after a non-empty buffer. -/
def tailJoin : List String → String
  | [] => ""
  | c :: cs => "\n" ++ c ++ tailJoin cs

theorem joinWithNl_eq (c : String) (cs : List String) :
    joinWithNl (c :: cs) = c ++ tailJoin cs := by
  induction cs generalizing c with
  | nil => simp [joinWithNl, tailJoin]
  | cons d cs ih =>
    show c ++ "\n" ++ joinWithNl (d :: cs) = c ++ ("\n" ++ d ++ tailJoin cs)
    rw [ih d]
    simp [String.append_assoc]

/-- The `data:` buffer accumulator: the buffer contents after appending each
chunk, joined with `\n` once the buffer is non-empty. -/
def accData (d : String) : List String → String
  | [] => d
  | c :: cs => accData (if d = "" then c else d ++ "\n" ++ c) cs

theorem accData_of_ne (cs : List String) :
    ∀ d : String, d ≠ "" → accData d cs = d ++ tailJoin cs := by
  induction cs with
  | nil =>
    intro d _
    show d = d ++ ""
    exact ((String.append_empty d).symm)
  | cons c cs ih =>
    intro d hd
    show accData (if d = "" then c else d ++ "\n" ++ c) cs = _
    rw [if_neg hd]
    rw [ih (d ++ "\n" ++ c) (append_ne_empty_left c (append_ne_empty_left "\n" hd))]
    simp [tailJoin, String.append_assoc]

theorem accData_empty (c : String) (cs : List String) (hc : c ≠ "") :
    accData "" (c :: cs) = joinWithNl (c :: cs) := by
  show accData (if ("" : String) = "" then c else "" ++ "\n" ++ c) cs = _
  rw [if_pos rfl, accData_of_ne cs c hc, joinWithNl_eq]

theorem joinWithNl_ne_empty (c : String) (cs : List String) (hc : c ≠ "") :
    joinWithNl (c :: cs) ≠ "" := by
  rw [joinWithNl_eq]
  exact append_ne_empty_left _ hc

theorem sseRun_ok_cons (h : EventHandler E) (de : Bool) (st : SseState) (l : String)
    (rest : List (Except String String)) :
    sseRun h de st (.ok l :: rest) =
      match sseLine h de st l with
      | (.terminate, st', _) =>
        { items := [], calls := [], finalState := st', sentinel := true }
      | (.emit x, st', call?) =>
        let t := sseRun h de st' rest
        { t with items := x :: t.items, calls := call?.toList ++ t.calls }
      | (.nothing, st', call?) =>
        let t := sseRun h de st' rest
        { t with calls := call?.toList ++ t.calls } := rfl

theorem sseRun_err_cons (h : EventHandler E) (de : Bool) (st : SseState) (e : String)
    (rest : List (Except String String)) :
    sseRun h de st (.error e :: rest) =
      (let t := sseRun h de st rest
       { t with items := .error e :: t.items }) := rfl

theorem sseRun_data_acc (h : EventHandler E) (de : Bool) :
    ∀ (cs : List String) (st : SseState) (ls : List (Except String String)),
      (∀ c ∈ cs, goodChunk c) →
      sseRun h de st ((cs.map (fun c => Except.ok ("data: " ++ c))) ++ ls) =
        sseRun h de { st with data := accData st.data cs } ls := by
  intro cs
  induction cs with
  | nil =>
    intro st ls _
    show sseRun h de st ls = sseRun h de { st with data := st.data } ls
    rfl
  | cons c cs ih =>
    intro st ls hgood
    obtain ⟨hc, hne⟩ := hgood c (List.mem_cons_self c cs)
    show sseRun h de st (.ok ("data: " ++ c) :: (cs.map _ ++ ls)) = _
    rw [sseRun_ok_cons, sseLine_data h de st c hc hne]
    show sseRun h de { st with data := if st.data = "" then c else st.data ++ "\n" ++ c }
        (cs.map (fun c => Except.ok ("data: " ++ c)) ++ ls) = _
    rw [ih _ ls (fun x hx => hgood x (List.mem_cons_of_mem c hx))]
    rfl

/-- Processing one complete record — data lines then a blank line — from a
state with an empty payload buffer: `handle_data` receives the `\n`-join of
the chunks exactly once, one item is emitted for the record, and the buffer
and current event type are cleared before the remaining lines are
processed. -/
theorem sseRun_record (h : EventHandler E) (de : Bool) (st : SseState) (hd : st.data = "")
    (c : String) (cs : List String) (hgood : ∀ x ∈ c :: cs, goodChunk x)
    (rest : List (Except String String)) :
    sseRun h de st (((c :: cs).map (fun x => Except.ok ("data: " ++ x))) ++ .ok "" :: rest) =
      (let t := sseRun h de { st with data := "", eventType := none } rest
       { t with
          items := h.handle_data (joinWithNl (c :: cs)) :: t.items
          calls := HandlerCall.data (joinWithNl (c :: cs)) :: t.calls }) := by
  rw [sseRun_data_acc h de (c :: cs) st (.ok "" :: rest) hgood]
  have hcne : c ≠ "" := goodChunk_ne_empty (hgood c (List.mem_cons_self c cs))
  rw [hd, accData_empty c cs hcne]
  rw [sseRun_ok_cons]
  rw [sseLine_blank_flush h de _ (by simpa using joinWithNl_ne_empty c cs hcne)]
  rfl

/-- Reading a line whose trimmed form is the sentinel ends the drain at
once: no items, no handler calls, the state (partial buffers included)
simply dropped. -/
theorem sseRun_sentinel (h : EventHandler E) (de : Bool) (st : SseState) (l : String)
    (rest : List (Except String String)) (hl : rustTrim l = "data: [DONE]") :
    sseRun h de st (.ok l :: rest) =
      { items := [], calls := [], finalState := st, sentinel := true } := by
  rw [sseRun_ok_cons, sseLine_sentinel h de st l hl]

/-- Shape of one line's processing: only the sentinel line terminates, and
the per-line machine never calls `handle_unexpected` (that flush happens
only at end-of-input). -/
theorem sseLine_shape (h : EventHandler E) (de : Bool) (st : SseState) (l : String) :
    ((sseLine h de st l).1 = LineEffect.terminate → rustTrim l = "data: [DONE]") ∧
    (∀ s, (sseLine h de st l).2.2 ≠ some (HandlerCall.unexpected s)) := by
  unfold sseLine
  by_cases hb : rustTrim l = ""
  · rw [if_pos hb]
    by_cases hd : st.data ≠ ""
    · rw [if_pos hd]
      exact ⟨fun habs => absurd habs (by simp), by simp⟩
    · rw [if_neg hd]
      exact ⟨fun habs => absurd habs (by simp), by simp⟩
  · rw [if_neg hb]
    cases hstrip : stripPre (rustTrim l) "data: " with
    | some chunk =>
      simp only []
      by_cases hdone : chunk = "[DONE]"
      · rw [if_pos hdone]
        refine ⟨fun _ => ?_, by simp⟩
        have h2 := stripPre_eq_some hstrip
        rw [hdone] at h2
        rw [h2]
        rfl
      · rw [if_neg hdone]
        exact ⟨fun habs => absurd habs (by simp), by simp⟩
    | none =>
      simp only []
      cases hev : stripPre (rustTrim l) "event: " with
      | some ev =>
        simp only []
        by_cases hde : de = true
        · rw [if_pos hde]
          exact ⟨fun habs => absurd habs (by simp), by simp⟩
        · rw [if_neg hde]
          cases hhe : h.handle_event ev with
          | error e =>
            exact ⟨fun habs => absurd habs (by simp), by simp⟩
          | ok u =>
            exact ⟨fun habs => absurd habs (by simp), by simp⟩
      | none =>
        simp only []
        cases hid : stripPre (rustTrim l) "id: " with
        | some eid =>
          exact ⟨fun habs => absurd habs (by simp), by simp⟩
        | none =>
          simp only []
          cases hr : stripPre (rustTrim l) "retry: " with
          | some v =>
            exact ⟨fun habs => absurd habs (by simp), by simp⟩
          | none =>
            simp only []
            by_cases hcm : startsWithStr (rustTrim l) ":" = true
            · rw [if_pos hcm]
              exact ⟨fun habs => absurd habs (by simp), by simp⟩
            · rw [if_neg hcm]
              exact ⟨fun habs => absurd habs (by simp), by simp⟩

/-- Only the sentinel line terminates the per-line machine. -/
theorem sseLine_terminate_imp (h : EventHandler E) (de : Bool) (st : SseState) (l : String)
    (ht : (sseLine h de st l).1 = .terminate) : rustTrim l = "data: [DONE]" :=
  (sseLine_shape h de st l).1 ht

/-- The per-line machine never calls `handle_unexpected`. -/
theorem sseLine_call_not_unexpected (h : EventHandler E) (de : Bool) (st : SseState)
    (l : String) (s : String) :
    (sseLine h de st l).2.2 ≠ some (.unexpected s) :=
  (sseLine_shape h de st l).2 s

/-- Prepending at most one non-`unexpected` handler call leaves the
`unexpected` projection of the call list unchanged. -/
theorem filterMap_unexpected_cons (call? : Option HandlerCall)
    (hc : ∀ s, call? ≠ some (.unexpected s)) (calls : List HandlerCall) :
    (call?.toList ++ calls).filterMap
        (fun c => match c with | .unexpected s => some s | _ => none) =
      calls.filterMap (fun c => match c with | .unexpected s => some s | _ => none) := by
  cases call? with
  | none => rfl
  | some c =>
    cases c with
    | data s => rfl
    | event s => rfl
    | unexpected s => exact absurd rfl (hc s)

/-- A sentinel-terminated drain never calls `handle_unexpected`, whatever
content the `unexpected` buffer holds when the sentinel arrives. -/
theorem sseRun_sentinel_no_unexpected (h : EventHandler E) (de : Bool) :
    ∀ (ls₁ : List (Except String String)) (st : SseState) (l : String)
      (rest : List (Except String String)),
      (∀ x ∈ ls₁, isSentinel x = false) → rustTrim l = "data: [DONE]" →
      (sseRun h de st (ls₁ ++ .ok l :: rest)).unexpectedCalls = [] ∧
      (sseRun h de st (ls₁ ++ .ok l :: rest)).sentinel = true := by
  intro ls₁
  induction ls₁ with
  | nil =>
    intro st l rest _ hl
    rw [List.nil_append, sseRun_sentinel h de st l rest hl]
    constructor <;> rfl
  | cons x ls₁ ih =>
    intro st l rest hfree hl
    have hxfree : isSentinel x = false := hfree x (List.mem_cons_self x ls₁)
    have hrest : ∀ y ∈ ls₁, isSentinel y = false :=
      fun y hy => hfree y (List.mem_cons_of_mem x hy)
    cases x with
    | error e =>
      rw [List.cons_append, sseRun_err_cons]
      have := ih st l rest hrest hl
      unfold SseTrace.unexpectedCalls at this ⊢
      exact this
    | ok line =>
      rw [List.cons_append, sseRun_ok_cons]
      match hline : sseLine h de st line with
      | (.terminate, st', c?) =>
        have : rustTrim line = "data: [DONE]" :=
          sseLine_terminate_imp h de st line (by rw [hline])
        rw [isSentinel] at hxfree
        simp [this] at hxfree
      | (.emit i, st', c?) =>
        have hnu : ∀ s, c? ≠ some (.unexpected s) := by
          intro s hs
          exact sseLine_call_not_unexpected h de st line s (by rw [hline, hs])
        have := ih st' l rest hrest hl
        unfold SseTrace.unexpectedCalls at this ⊢
        simp only []
        rw [filterMap_unexpected_cons c? hnu]
        exact this
      | (.nothing, st', c?) =>
        have hnu : ∀ s, c? ≠ some (.unexpected s) := by
          intro s hs
          exact sseLine_call_not_unexpected h de st line s (by rw [hline, hs])
        have := ih st' l rest hrest hl
        unfold SseTrace.unexpectedCalls at this ⊢
        simp only []
        rw [filterMap_unexpected_cons c? hnu]
        exact this

/-- On a sentinel-free line list the drain reaches end-of-input, and
`handle_unexpected` is called exactly for the (single) non-empty final
`unexpected` buffer. -/
theorem sseRun_eof_unexpected (h : EventHandler E) (de : Bool) :
    ∀ (ls : List (Except String String)) (st : SseState),
      (∀ x ∈ ls, isSentinel x = false) →
      (sseRun h de st ls).unexpectedCalls =
        (if (sseRun h de st ls).finalState.unexpected = "" then []
         else [(sseRun h de st ls).finalState.unexpected]) ∧
      (sseRun h de st ls).sentinel = false := by
  intro ls
  induction ls with
  | nil =>
    intro st _
    show (sseRun h de st []).unexpectedCalls = _ ∧ _
    unfold sseRun
    by_cases hu : st.unexpected = ""
    · rw [if_neg (by simp [hu])]
      simp [SseTrace.unexpectedCalls, hu]
    · rw [if_pos hu]
      cases hh : h.handle_unexpected st.unexpected <;>
        simp [SseTrace.unexpectedCalls, hu]
  | cons x ls ih =>
    intro st hfree
    have hxfree : isSentinel x = false := hfree x (List.mem_cons_self x ls)
    have hrest : ∀ y ∈ ls, isSentinel y = false :=
      fun y hy => hfree y (List.mem_cons_of_mem x hy)
    cases x with
    | error e =>
      rw [sseRun_err_cons]
      have := ih st hrest
      unfold SseTrace.unexpectedCalls at this ⊢
      exact this
    | ok line =>
      rw [sseRun_ok_cons]
      match hline : sseLine h de st line with
      | (.terminate, st', c?) =>
        have : rustTrim line = "data: [DONE]" :=
          sseLine_terminate_imp h de st line (by rw [hline])
        rw [isSentinel] at hxfree
        simp [this] at hxfree
      | (.emit i, st', c?) =>
        have hnu : ∀ s, c? ≠ some (.unexpected s) := by
          intro s hs
          exact sseLine_call_not_unexpected h de st line s (by rw [hline, hs])
        have := ih st' hrest
        unfold SseTrace.unexpectedCalls at this ⊢
        simp only []
        rw [filterMap_unexpected_cons c? hnu]
        exact this
      | (.nothing, st', c?) =>
        have hnu : ∀ s, c? ≠ some (.unexpected s) := by
          intro s hs
          exact sseLine_call_not_unexpected h de st line s (by rw [hline, hs])
        have := ih st' hrest
        unfold SseTrace.unexpectedCalls at this ⊢
        simp only []
        rw [filterMap_unexpected_cons c? hnu]
        exact this

/-! ## Lemmas about the agent run loop -/

/-- The state carried by an iteration result. -/
def IterResult.state : IterResult → AgentState
  | .halt _ st _ => st
  | .next _ st => st

theorem runLoop_zero (cfg : AgentCfg) (env : RunEnv) (step : Nat) (st : AgentState) :
    runLoop cfg env 0 step st =
      { events := [.error (maxStepsMsg cfg.max_steps),
                   .completed false st.metadata.total_steps],
        state := st, outcome := .done (.ok ()) } := rfl

theorem runLoop_succ (cfg : AgentCfg) (env : RunEnv) (fuel step : Nat) (st : AgentState) :
    runLoop cfg env (fuel + 1) step st =
      match runIter cfg env step st with
      | .halt evs st' out => { events := evs, state := st', outcome := out }
      | .next evs st' =>
        let t := runLoop cfg env fuel (step + 1) st'
        { t with events := evs ++ t.events } := rfl

theorem runIter_not_complete (cfg : AgentCfg) (env : RunEnv) (step : Nat) (st : AgentState)
    (h : st.is_complete = false) : runIter cfg env step st = runReason cfg env step st := by
  unfold runIter
  rw [h]
  simp

/-- A failure establishing the reasoning stream is fatal: error event,
failed-completion event, error outcome. -/
theorem runReason_fatal (cfg : AgentCfg) (env : RunEnv) (step : Nat) (st : AgentState)
    (e : String) (hsse : env.sse step = .error e) :
    runReason cfg env step st =
      .halt [.error e, .completed false st.metadata.total_steps] st (.done (.error e)) := by
  unfold runReason
  rw [hsse]

/-- A completed reasoning step containing an extractable final answer halts
the run successfully on that same step. -/
theorem runReason_answer (cfg : AgentCfg) (env : RunEnv) (step : Nat) (st : AgentState)
    (items : List (Except String String)) (full ans : String)
    (hsse : env.sse step = .ok items)
    (hfull : joinAll (reasoningTokens items) = full)
    (hmark : containsStr (toLowerStr full) "final answer:" = true)
    (hans : extract_final_answer full = some ans) :
    runReason cfg env step st =
      .halt ((reasoningTokens items).map AgentEvent.reasoningToken ++
          [.reasoningStepDone full, .finalAnswer ans,
           .completed true (st.metadata.total_steps + 1)])
        (st.add_step full) (.done (.ok ())) := by
  unfold runReason
  rw [hsse]
  simp only [hfull]
  rw [if_neg (trim_ne_of_contains_marker hmark), if_pos hmark, hans]
  simp [AgentState.add_step]

/-- A completed reasoning step with no final answer and a failing tool
dispatch: the error is recorded as a `ToolCallResult` in the state, the
error and metadata events are emitted, and the loop continues. -/
theorem runReason_tool_error (cfg : AgentCfg) (env : RunEnv) (step : Nat) (st : AgentState)
    (items : List (Except String String)) (full : String) (tc : ToolCall)
    (tevs : List AgentEvent) (emsg : String)
    (hsse : env.sse step = .ok items)
    (hfull : joinAll (reasoningTokens items) = full)
    (htrim : rustTrim full ≠ "")
    (hmark : containsStr (toLowerStr full) "final answer:" = false)
    (hparse : parse_tool_call full = .ok (some tc))
    (hcall : call_tool_with_timeout cfg (env.timedOut step) tc = (tevs, .error emsg)) :
    runReason cfg env step st =
      .next ((reasoningTokens items).map AgentEvent.reasoningToken ++
          [.reasoningStepDone full, .toolCall tc.name tc.args] ++ tevs ++
          [.error emsg,
           .metadata (st.metadata.total_steps + 1) (st.metadata.tool_calls_count + 1)])
        ((st.add_step full).add_tool_call (ToolCallResult.err tc.name tc.args emsg)) := by
  unfold runReason
  rw [hsse]
  simp only [hfull]
  rw [if_neg htrim, hmark]
  simp only [Bool.false_eq_true, if_false]
  unfold runTools
  rw [hparse]
  simp only []
  rw [hcall]
  simp [AgentState.add_step, AgentState.add_tool_call]

/-- A completed reasoning step with no final answer always yields a `next`
iteration result (never a halt), as long as tool-call parsing does not
panic: the step is recorded and the loop proceeds. -/
theorem runReason_continues (cfg : AgentCfg) (env : RunEnv) (step : Nat) (st : AgentState)
    (items : List (Except String String)) (full : String) (pr : Option ToolCall)
    (hsse : env.sse step = .ok items)
    (hfull : joinAll (reasoningTokens items) = full)
    (htrim : rustTrim full ≠ "")
    (hmark : containsStr (toLowerStr full) "final answer:" = false)
    (hparse : parse_tool_call full = .ok pr) :
    ∃ evs st', runReason cfg env step st = .next evs st' ∧
      st'.metadata.total_steps = st.metadata.total_steps + 1 ∧
      st'.reasoning_steps = st.reasoning_steps ++ [full] := by
  unfold runReason
  rw [hsse]
  simp only [hfull]
  rw [if_neg htrim, hmark]
  simp only [Bool.false_eq_true, if_false]
  unfold runTools
  rw [hparse]
  cases pr with
  | none =>
    exact ⟨_, _, rfl, rfl, rfl⟩
  | some tc =>
    simp only []
    rcases hcall : call_tool_with_timeout cfg (env.timedOut step) tc with ⟨tevs, tres⟩
    cases tres with
    | ok result =>
      exact ⟨_, _, rfl, rfl, rfl⟩
    | error e =>
      exact ⟨_, _, rfl, rfl, rfl⟩

/-- One iteration looks at the environment only through index `step`. -/
theorem runIter_congr (cfg : AgentCfg) (env env' : RunEnv) (step : Nat) (st : AgentState)
    (hs : env.sse step = env'.sse step) (ht : env.timedOut step = env'.timedOut step) :
    runIter cfg env step st = runIter cfg env' step st := by
  unfold runIter runReason runTools
  rw [hs, ht]

/-- The loop looks at the environment only through the `fuel` step indices
it may still execute. -/
theorem runLoop_congr (cfg : AgentCfg) (env env' : RunEnv) :
    ∀ (fuel step : Nat) (st : AgentState),
      (∀ i, step ≤ i → i < step + fuel →
        env.sse i = env'.sse i ∧ env.timedOut i = env'.timedOut i) →
      runLoop cfg env fuel step st = runLoop cfg env' fuel step st := by
  intro fuel
  induction fuel with
  | zero => intro step st _; rfl
  | succ fuel ih =>
    intro step st hagree
    rw [runLoop_succ, runLoop_succ]
    have h0 := hagree step (Nat.le_refl step) (by omega)
    rw [runIter_congr cfg env env' step st h0.1 h0.2]
    cases runIter cfg env' step st with
    | halt evs st' out => rfl
    | next evs st' =>
      simp only []
      rw [ih (step + 1) st' (fun i h1 h2 => hagree i (by omega) (by omega))]

/-- Tool dispatch never touches the recorded reasoning steps. -/
theorem runTools_state_steps (cfg : AgentCfg) (env : RunEnv) (step : Nat) (st1 : AgentState)
    (evs1 : List AgentEvent) (full : String) :
    (runTools cfg env step st1 evs1 full).state.reasoning_steps = st1.reasoning_steps := by
  unfold runTools
  cases parse_tool_call full with
  | error e => rfl
  | ok pr =>
    cases pr with
    | none => rfl
    | some tc =>
      simp only []
      rcases call_tool_with_timeout cfg (env.timedOut step) tc with ⟨tevs, tres⟩
      cases tres with
      | ok result => simp [IterResult.state, AgentState.add_tool_call]
      | error e => simp [IterResult.state, AgentState.add_tool_call]

/-- One reasoning phase appends at most one reasoning step to the state. -/
theorem runReason_state_steps (cfg : AgentCfg) (env : RunEnv) (step : Nat) (st : AgentState) :
    (runReason cfg env step st).state.reasoning_steps.length ≤
      st.reasoning_steps.length + 1 := by
  unfold runReason
  cases hsse : env.sse step with
  | error e => simp [IterResult.state]
  | ok items =>
    simp only []
    by_cases htrim : rustTrim (joinAll (reasoningTokens items)) = ""
    · rw [if_pos htrim]
      simp [IterResult.state]
    · rw [if_neg htrim]
      by_cases hmark :
          containsStr (toLowerStr (joinAll (reasoningTokens items))) "final answer:" = true
      · rw [if_pos hmark]
        cases extract_final_answer (joinAll (reasoningTokens items)) with
        | some a => simp [IterResult.state, AgentState.add_step]
        | none =>
          rw [runTools_state_steps]
          simp [AgentState.add_step]
      · rw [if_neg hmark]
        rw [runTools_state_steps]
        simp [AgentState.add_step]

/-- One iteration appends at most one reasoning step to the state. -/
theorem runIter_state_steps (cfg : AgentCfg) (env : RunEnv) (step : Nat) (st : AgentState) :
    (runIter cfg env step st).state.reasoning_steps.length ≤
      st.reasoning_steps.length + 1 := by
  unfold runIter
  by_cases hc : st.is_complete = true
  · rw [if_pos hc]
    cases extract_final_answer ((st.reasoning_steps.getLast?).getD "") with
    | some a => simp [IterResult.state]
    | none => exact runReason_state_steps cfg env step st
  · rw [if_neg hc]
    exact runReason_state_steps cfg env step st

/-- The run appends at most `fuel` reasoning steps. -/
theorem runLoop_steps_le (cfg : AgentCfg) (env : RunEnv) :
    ∀ (fuel step : Nat) (st : AgentState),
      (runLoop cfg env fuel step st).state.reasoning_steps.length ≤
        st.reasoning_steps.length + fuel := by
  intro fuel
  induction fuel with
  | zero => intro step st; exact Nat.le_refl _
  | succ fuel ih =>
    intro step st
    rw [runLoop_succ]
    cases hiter : runIter cfg env step st with
    | halt evs st' out =>
      simp only []
      have h2 := runIter_state_steps cfg env step st
      rw [hiter] at h2
      simp only [IterResult.state] at h2
      omega
    | next evs st' =>
      simp only []
      have h1 := ih (step + 1) st'
      have h2 := runIter_state_steps cfg env step st
      rw [hiter] at h2
      simp only [IterResult.state] at h2
      omega

/-! ## Substring-containment lemmas for prompt observations -/

theorem containsStr_iff (s m : String) :
    containsStr s m = true ↔ ∃ a b, s.data = a ++ (m.data ++ b) := by
  constructor
  · intro h
    unfold containsStr findSubIdx at h
    rw [Option.isSome_iff_exists] at h
    obtain ⟨j, hj⟩ := h
    obtain ⟨a, b, hab⟩ := findSubAux_infix m.data s.data 0 j hj
    exact ⟨a, b, by rw [hab, List.append_assoc]⟩
  · intro ⟨a, b, hab⟩
    unfold containsStr findSubIdx
    rw [hab, ← List.append_assoc]
    exact findSubAux_parts m.data a b 0

theorem containsStr_self (m : String) : containsStr m m = true := by
  rw [containsStr_iff]
  exact ⟨[], [], by simp⟩

theorem containsStr_append_left (s t m : String) (h : containsStr t m = true) :
    containsStr (s ++ t) m = true := by
  rw [containsStr_iff] at h ⊢
  obtain ⟨a, b, hab⟩ := h
  exact ⟨s.data ++ a, b, by rw [String.data_append, hab, List.append_assoc]⟩

theorem containsStr_append_right (s t m : String) (h : containsStr s m = true) :
    containsStr (s ++ t) m = true := by
  rw [containsStr_iff] at h ⊢
  obtain ⟨a, b, hab⟩ := h
  exact ⟨a, b ++ t.data, by rw [String.data_append, hab]; simp⟩

theorem joinAll_contains_of_mem (m : String) :
    ∀ (l : List String) (e : String), e ∈ l → containsStr e m = true →
      containsStr (joinAll l) m = true := by
  intro l
  induction l with
  | nil => intro e he; cases he
  | cons x l ih =>
    intro e he hc
    rcases List.mem_cons.mp he with rfl | h
    · exact containsStr_append_right e (joinAll l) m hc
    · exact containsStr_append_left x (joinAll l) m (ih e h hc)

/-- When the state holds an error `ToolCallResult` at an index covered by
the recorded reasoning steps, the next prompt built from that state shows
the error message as an `Error:` observation line. -/
theorem prompt_error_observation (st : AgentState) (i : Nat) (tc : ToolCall) (m : String)
    (hi : i < st.reasoning_steps.length)
    (htc : st.tool_calls[i]? = some { tool_call := tc, outcome := .error m }) :
    containsStr (build_prompt st) ("Error: " ++ m) = true := by
  obtain ⟨step, hstep⟩ : ∃ a, st.reasoning_steps[i]? = some a :=
    Option.isSome_iff_exists.mp (by simp [List.getElem?_eq_getElem hi])
  have hentry : promptEntry st.tool_calls i step ∈
      st.reasoning_steps.enum.map (fun p => promptEntry st.tool_calls p.1 p.2) := by
    have hidx : (st.reasoning_steps.enum.map
        (fun p => promptEntry st.tool_calls p.1 p.2))[i]? =
        some (promptEntry st.tool_calls i step) := by
      rw [List.getElem?_map, List.getElem?_enum, hstep]
      rfl
    exact List.getElem?_mem hidx
  have hcontains : containsStr (promptEntry st.tool_calls i step) ("Error: " ++ m) = true := by
    unfold promptEntry
    rw [htc]
    apply containsStr_append_left
    apply containsStr_append_right
    apply containsStr_append_left
    apply containsStr_append_right
    exact containsStr_self _
  unfold build_prompt
  apply containsStr_append_right
  apply containsStr_append_right
  apply containsStr_append_right
  apply containsStr_append_left
  exact joinAll_contains_of_mem _ _ _ hentry hcontains

/-! ## Claim theorems -/

/-- C4: for every blank-line-terminated record of well-formed `data: `
lines the decoder emits exactly one event: the chunks joined with `\n` in
arrival order are passed to `handle_data` exactly once when the blank line
is read, after which the payload buffer and the current event-type are
cleared (the id is untouched) and decoding continues; a blank line read
with an empty payload buffer emits nothing and changes nothing. -/
theorem sse_record_joined_once (E : Type) (h : EventHandler E) (de : Bool) :
    (∀ (st : SseState) (c : String) (cs : List String)
        (rest : List (Except String String)),
      st.data = "" → (∀ x ∈ c :: cs, goodChunk x) →
      sseRun h de st (((c :: cs).map (fun x => Except.ok ("data: " ++ x))) ++
          .ok "" :: rest) =
        (let t := sseRun h de { st with data := "", eventType := none } rest
         { t with
            items := h.handle_data (joinWithNl (c :: cs)) :: t.items
            calls := HandlerCall.data (joinWithNl (c :: cs)) :: t.calls })) ∧
    (∀ st : SseState, st.data = "" → sseLine h de st "" = (.nothing, st, none)) := by
  constructor
  · intro st c cs rest hd hgood
    exact sseRun_record h de st hd c cs hgood rest
  · intro st hd
    exact sseLine_blank_noop h de st hd

theorem sse_record_joined_once_witness :
    SseState.init.data = "" ∧ (∀ x ∈ ["a", "b"], goodChunk x) ∧
    sseRun unitHandler false SseState.init
        ((["a", "b"].map (fun x => Except.ok ("data: " ++ x))) ++ .ok "" :: []) =
      (let t := sseRun unitHandler false
          { SseState.init with data := "", eventType := none } []
       { t with
          items := unitHandler.handle_data (joinWithNl ["a", "b"]) :: t.items
          calls := HandlerCall.data (joinWithNl ["a", "b"]) :: t.calls }) :=
  ⟨rfl, by decide,
    (sse_record_joined_once String unitHandler false).1 SseState.init "a" ["b"] []
      rfl (by decide)⟩

/-- C5: the line `data: [DONE]` ends the sequence immediately — no further
items, no handler calls — even when the payload buffer holds partially
accumulated data, which is discarded rather than flushed to
`handle_data`. -/
theorem sse_done_sentinel_stops (E : Type) (h : EventHandler E) (de : Bool) :
    (∀ (st : SseState) (rest : List (Except String String)),
      sseRun h de st (.ok "data: [DONE]" :: rest) =
        { items := [], calls := [], finalState := st, sentinel := true }) ∧
    (∀ (st : SseState) (cs : List String) (rest : List (Except String String)),
      (∀ x ∈ cs, goodChunk x) →
      (sseRun h de st ((cs.map (fun x => Except.ok ("data: " ++ x))) ++
          .ok "data: [DONE]" :: rest)).items = [] ∧
      (sseRun h de st ((cs.map (fun x => Except.ok ("data: " ++ x))) ++
          .ok "data: [DONE]" :: rest)).calls = []) := by
  constructor
  · intro st rest
    exact sseRun_sentinel h de st "data: [DONE]" rest rfl
  · intro st cs rest hgood
    rw [sseRun_data_acc h de cs st _ hgood]
    rw [sseRun_sentinel h de _ "data: [DONE]" rest rfl]
    exact ⟨rfl, rfl⟩

theorem sse_done_sentinel_stops_witness :
    (∀ x ∈ ["partial"], goodChunk x) ∧
    (sseRun unitHandler false SseState.init
        ((["partial"].map (fun x => Except.ok ("data: " ++ x))) ++
          .ok "data: [DONE]" :: [.ok "data: after", .ok ""])).items = [] ∧
    (sseRun unitHandler false SseState.init
        ((["partial"].map (fun x => Except.ok ("data: " ++ x))) ++
          .ok "data: [DONE]" :: [.ok "data: after", .ok ""])).calls = [] :=
  ⟨by decide,
    (sse_done_sentinel_stops String unitHandler false).2 SseState.init ["partial"]
      [.ok "data: after", .ok ""] (by decide)⟩

/-- An event handler whose `handle_event` always fails: a concrete
instantiation exhibiting the decoder's behaviour after a handler error. -/
def failingEventHandler : EventHandler String :=
  { handle_event := fun _ => .error "boom"
    handle_data := fun d => .ok d
    handle_unexpected := fun _ => .ok () }

/-- C6 counterexample: after `handle_event` returns an error — emitted as
an error item — the decoder keeps processing on subsequent polls and the
following record still yields an item, so the error is not the sequence's
final item. -/
theorem sse_handler_error_not_terminal :
    (sseRun failingEventHandler false SseState.init
        [.ok "event: x", .ok "data: a", .ok ""]).items =
      [.error "boom", .ok "a"] := rfl

/-- C6 (amended): a non-ok handler result is emitted as an error item; for
`handle_unexpected` at end-of-input that error is the final item, but
errors from `handle_event` and `handle_data` do not terminate the drain —
decoding continues with the handler's state transition applied. -/
theorem sse_handler_error_emitted (E : Type) (h : EventHandler E) (de : Bool) :
    (∀ (st : SseState) (e : String), st.unexpected ≠ "" →
      h.handle_unexpected st.unexpected = .error e →
      sseRun h de st [] =
        { items := [.error e], calls := [.unexpected st.unexpected],
          finalState := st, sentinel := false }) ∧
    (∀ (st : SseState) (ev e : String) (rest : List (Except String String)),
      rustTrim ("event: " ++ ev) = "event: " ++ ev →
      h.handle_event ev = .error e →
      sseRun h false st (.ok ("event: " ++ ev) :: rest) =
        (let t := sseRun h false { st with eventType := some ev } rest
         { t with items := .error e :: t.items, calls := .event ev :: t.calls })) ∧
    (∀ (st : SseState) (e : String) (rest : List (Except String String)),
      st.data ≠ "" → h.handle_data st.data = .error e →
      sseRun h de st (.ok "" :: rest) =
        (let t := sseRun h de { st with data := "", eventType := none } rest
         { t with items := .error e :: t.items, calls := .data st.data :: t.calls })) := by
  refine ⟨?_, ?_, ?_⟩
  · intro st e hu herr
    unfold sseRun
    rw [if_pos hu, herr]
  · intro st ev e rest hev herr
    rw [sseRun_ok_cons, sseLine_event h st ev hev, herr]
    rfl
  · intro st e rest hd herr
    rw [sseRun_ok_cons, sseLine_blank_flush h de st hd, herr]
    rfl

theorem sse_handler_error_emitted_witness :
    ({ eventType := none, eventId := none, data := "", unexpected := "junk"
       : SseState }.unexpected ≠ "") ∧
    (EventHandler.mk (fun _ => Except.ok ()) (fun d => Except.ok d)
        (fun u => Except.error u) : EventHandler String).handle_unexpected "junk" =
      .error "junk" ∧
    sseRun (EventHandler.mk (fun _ => Except.ok ()) (fun d => Except.ok d)
        (fun u => Except.error u) : EventHandler String) false
      { eventType := none, eventId := none, data := "", unexpected := "junk" } [] =
      { items := [.error "junk"], calls := [.unexpected "junk"],
        finalState := { eventType := none, eventId := none, data := "", unexpected := "junk" },
        sentinel := false } :=
  ⟨by decide, rfl,
    (sse_handler_error_emitted String
        (EventHandler.mk (fun _ => Except.ok ()) (fun d => Except.ok d)
          (fun u => Except.error u)) false).1
      { eventType := none, eventId := none, data := "", unexpected := "junk" }
      "junk" (by decide) rfl⟩

/-- C10: a sentinel-terminated drain never invokes `handle_unexpected`
(whatever the `unexpected` buffer holds when `data: [DONE]` arrives, it is
discarded); only a drain that reaches end-of-input flushes the buffer, and
then `handle_unexpected` is invoked exactly once, with the accumulated
content, precisely when that buffer is non-empty. -/
theorem sse_unexpected_only_at_eof (E : Type) (h : EventHandler E) (de : Bool) :
    (∀ (ls₁ : List (Except String String)) (st : SseState) (l : String)
        (rest : List (Except String String)),
      (∀ x ∈ ls₁, isSentinel x = false) → rustTrim l = "data: [DONE]" →
      (sseRun h de st (ls₁ ++ .ok l :: rest)).unexpectedCalls = []) ∧
    (∀ (ls : List (Except String String)) (st : SseState),
      (∀ x ∈ ls, isSentinel x = false) →
      (sseRun h de st ls).unexpectedCalls =
        (if (sseRun h de st ls).finalState.unexpected = "" then []
         else [(sseRun h de st ls).finalState.unexpected])) := by
  constructor
  · intro ls₁ st l rest hfree hl
    exact (sseRun_sentinel_no_unexpected h de ls₁ st l rest hfree hl).1
  · intro ls st hfree
    exact (sseRun_eof_unexpected h de ls st hfree).1

theorem sse_unexpected_only_at_eof_witness :
    (∀ x ∈ [Except.ok "not sse"], isSentinel x = false) ∧
    (sseRun unitHandler false SseState.init
        ([.ok "not sse"] ++ .ok "data: [DONE]" :: [])).unexpectedCalls = [] ∧
    (sseRun unitHandler false SseState.init [.ok "not sse"]).unexpectedCalls =
      (if (sseRun unitHandler false SseState.init
            [.ok "not sse"]).finalState.unexpected = "" then []
       else [(sseRun unitHandler false SseState.init
            [.ok "not sse"]).finalState.unexpected]) :=
  ⟨by decide,
    (sse_unexpected_only_at_eof String unitHandler false).1 [.ok "not sse"]
      SseState.init "data: [DONE]" [] (by decide) rfl,
    (sse_unexpected_only_at_eof String unitHandler false).2 [.ok "not sse"]
      SseState.init (by decide)⟩

/-- C1: the claim says extraction always completes, but building the brace
candidate evaluates the Rust slice `output[first_brace ..= last_brace]`
before any candidate is parsed, and on the reasoning text `"} {"` — first
`{` at index 2, last `}` at index 0 — that slice panics with
`slice index starts at 2 but ends at 1`.  Extraction therefore does not
return "a tool call or nothing" on every input: this input kills the
task. -/
theorem parse_tool_call_panics_on_reversed_braces :
    parse_tool_call "\x7d \x7b" =
      .error "slice index starts at 2 but ends at 1" := rfl

/-- Modelled from the claim's wording for C9's candidate (c): the plain
substring from the first `{` to the last `}` — empty when either brace is
missing (and empty, rather than a panic, when the last `}` precedes the
first `{`). -/
def specBraceSub (output : String) : String :=
  match findCharIdx output '\x7b', rfindCharIdx output '\x7d' with
  | some i, some j => ⟨(output.data.drop i).take (j + 1 - i)⟩
  | _, _ => ""

/-- Modelled from the claim's wording: try, in priority order, (a) the full
trimmed text, (b) the first ```` ```json ````-fenced block, (c) the
substring from the first `{` to the last `}`, (d) the text after an
`Action Input:` marker; the first candidate parsing as a JSON object with a
string field `tool` wins, its `args` field (or null) becoming the
arguments; if no candidate parses, no tool call. -/
def extract_tool_call_spec (output : String) : Option ToolCall :=
  firstToolCall [candDirect output, candFenced output, specBraceSub output, candAction output]

/-- C9: whenever extraction completes (no slice panic), its result is
exactly the claim's priority-ordered extraction; on the fenced example the
call `search` with args `{"q":"x"}` is extracted; on text with no JSON
object and no `Action Input:` line, no tool call is produced. -/
theorem parse_tool_call_priority_order :
    (∀ (output : String) (r : Option ToolCall),
      parse_tool_call output = .ok r → r = extract_tool_call_spec output) ∧
    parse_tool_call "```json\n\x7b\"tool\":\"search\",\"args\":\x7b\"q\":\"x\"\x7d\x7d\n```" =
      .ok (some { name := "search", args := .obj [("q", .str "x")] }) ∧
    parse_tool_call "no json here at all" = .ok none := by
  refine ⟨?_, rfl, rfl⟩
  intro output r h
  unfold parse_tool_call at h
  unfold extract_tool_call_spec
  cases hbr : candBraces output with
  | error e => rw [hbr] at h; exact absurd h (by simp)
  | ok braces =>
    rw [hbr] at h
    simp only [Except.ok.injEq] at h
    subst h
    have hspec : braces = specBraceSub output := by
      unfold candBraces at hbr
      unfold specBraceSub
      cases hf : findCharIdx output '\x7b' with
      | none =>
        rw [hf] at hbr
        simp only [] at hbr
        cases rfindCharIdx output '\x7d' with
        | none => injection hbr with h'; exact h'.symm
        | some j => injection hbr with h'; exact h'.symm
      | some i =>
        rw [hf] at hbr
        cases hr : rfindCharIdx output '\x7d' with
        | none =>
          rw [hr] at hbr
          injection hbr with h'
          exact h'.symm
        | some j =>
          rw [hr] at hbr
          simp only [] at hbr
          unfold sliceInclusive at hbr
          by_cases hij : j + 1 < i
          · rw [if_pos hij] at hbr
            exact absurd hbr (by simp)
          · rw [if_neg hij] at hbr
            injection hbr with h'
            exact h'.symm
    rw [hspec]

/-- A run configuration with no registered tools, for concrete runs. -/
def cfgNoTools : AgentCfg :=
  { max_steps := 3, timeout_secs := 300, tools := [] }

/-- An environment whose reasoning stream suffers a transport failure after
token streaming has begun: a transport error item between two delta
payloads. -/
def envMidStreamFailure : RunEnv :=
  { sse := fun _ => .ok [.ok (deltaJson "Final Answer:"),
      .error "connection reset by peer", .ok (deltaJson " 42")]
    timedOut := fun _ => false }

/-- An environment whose reasoning stream fails at establishment. -/
def envEstabFailure : RunEnv :=
  { sse := fun _ => .error "connection refused", timedOut := fun _ => false }

/-- C2 counterexample: a transport failure occurring after token streaming
has begun is not fatal — the error item is dropped by the token filter and
this run completes successfully, with no error event and a successful
completion, despite the mid-stream transport error. -/
theorem reasoning_midstream_failure_not_fatal :
    envMidStreamFailure.sse 0 =
      .ok [.ok (deltaJson "Final Answer:"), .error "connection reset by peer",
           .ok (deltaJson " 42")] ∧
    (run_agent_stream cfgNoTools envMidStreamFailure (AgentState.new "q")).events =
      [.started 3 [], .reasoningToken "Final Answer:", .reasoningToken " 42",
       .reasoningStepDone "Final Answer: 42", .finalAnswer "42", .completed true 1] ∧
    (run_agent_stream cfgNoTools envMidStreamFailure (AgentState.new "q")).outcome =
      .done (.ok ()) :=
  ⟨rfl, rfl, rfl⟩

/-- C2 (amended): only a transport failure while establishing the reasoning
stream is fatal to the run — it aborts the loop, emits an error event and a
failed-completion event, and returns the error; a transport error item
arriving after streaming has begun is dropped by the token filter and does
not change the run's behaviour. -/
theorem reasoning_establishment_failure_fatal :
    (∀ (cfg : AgentCfg) (env : RunEnv) (st : AgentState) (e : String) (fuel : Nat),
      cfg.max_steps = fuel + 1 → st.is_complete = false → env.sse 0 = .error e →
      run_agent_stream cfg env st =
        { events := [.started cfg.max_steps (cfg.tools.map (fun p => p.1)),
                     .error e, .completed false st.metadata.total_steps],
          state := st, outcome := .done (.error e) }) ∧
    (∀ (items₁ items₂ : List (Except String String)) (e : String),
      reasoningTokens (items₁ ++ .error e :: items₂) =
        reasoningTokens (items₁ ++ items₂)) := by
  constructor
  · intro cfg env st e fuel hmax hnc hsse
    unfold run_agent_stream
    rw [hmax, runLoop_succ, runIter_not_complete cfg env 0 st hnc,
        runReason_fatal cfg env 0 st e hsse]
  · intro items₁ items₂ e
    unfold reasoningTokens
    rw [List.filterMap_append, List.filterMap_append, List.filterMap_cons]

theorem reasoning_establishment_failure_fatal_witness :
    cfgNoTools.max_steps = 2 + 1 ∧ (AgentState.new "q").is_complete = false ∧
    envEstabFailure.sse 0 = .error "connection refused" ∧
    run_agent_stream cfgNoTools envEstabFailure (AgentState.new "q") =
      { events := [.started cfgNoTools.max_steps (cfgNoTools.tools.map (fun p => p.1)),
                   .error "connection refused",
                   .completed false (AgentState.new "q").metadata.total_steps],
        state := AgentState.new "q", outcome := .done (.error "connection refused") } :=
  ⟨rfl, rfl, rfl,
    reasoning_establishment_failure_fatal.1 cfgNoTools envEstabFailure
      (AgentState.new "q") "connection refused" 2 rfl rfl rfl⟩

/-- An environment producing one non-empty reasoning text with no final
answer and no tool call. -/
def envThinking : RunEnv :=
  { sse := fun _ => .ok [.ok (deltaJson "thinking...")], timedOut := fun _ => false }

/-- A one-step run configuration with no tools. -/
def cfgOneStep : AgentCfg :=
  { max_steps := 1, timeout_secs := 300, tools := [] }

/-- C3: the loop consults the reasoning environment for at most `max_steps`
step indices and appends at most `max_steps` reasoning steps; and a run
with `max_steps = 1` whose single phase yields non-empty text without the
final-answer marker (and without a tool-parse panic) terminates after that
one phase with the max-steps error event followed by a failed completion
event carrying `totalSteps = 1`. -/
theorem run_bounded_by_max_steps :
    (∀ (cfg : AgentCfg) (env env' : RunEnv) (st : AgentState),
      (∀ i, i < cfg.max_steps →
        env.sse i = env'.sse i ∧ env.timedOut i = env'.timedOut i) →
      run_agent_stream cfg env st = run_agent_stream cfg env' st) ∧
    (∀ (cfg : AgentCfg) (env : RunEnv) (st : AgentState),
      (run_agent_stream cfg env st).state.reasoning_steps.length ≤
        st.reasoning_steps.length + cfg.max_steps) ∧
    (∀ (cfg : AgentCfg) (env : RunEnv) (input : String)
        (items : List (Except String String)) (full : String),
      cfg.max_steps = 1 → env.sse 0 = .ok items →
      joinAll (reasoningTokens items) = full → rustTrim full ≠ "" →
      containsStr (toLowerStr full) "final answer:" = false →
      (∀ e, parse_tool_call full ≠ .error e) →
      (run_agent_stream cfg env (AgentState.new input)).outcome = .done (.ok ()) ∧
      (∃ es, (run_agent_stream cfg env (AgentState.new input)).events =
        .started 1 (cfg.tools.map (fun p => p.1)) ::
          (es ++ [.error (maxStepsMsg 1), .completed false 1])) ∧
      (run_agent_stream cfg env (AgentState.new input)).state.reasoning_steps = [full]) := by
  refine ⟨?_, ?_, ?_⟩
  · intro cfg env env' st hagree
    unfold run_agent_stream
    rw [runLoop_congr cfg env env' cfg.max_steps 0 st
      (fun i h1 h2 => hagree i (by omega))]
  · intro cfg env st
    unfold run_agent_stream
    exact runLoop_steps_le cfg env cfg.max_steps 0 st
  · intro cfg env input items full hmax hsse hfull htrim hmark hnp
    have hnc : (AgentState.new input).is_complete = false := rfl
    obtain ⟨pr, hpr⟩ : ∃ pr, parse_tool_call full = .ok pr := by
      cases hp : parse_tool_call full with
      | error e => exact absurd hp (hnp e)
      | ok pr => exact ⟨pr, rfl⟩
    obtain ⟨evs, st', hnext, htotal, hsteps⟩ :=
      runReason_continues cfg env 0 (AgentState.new input) items full pr
        hsse hfull htrim hmark hpr
    have htotal1 : st'.metadata.total_steps = 1 := by
      rw [htotal]
      rfl
    unfold run_agent_stream
    rw [hmax, runLoop_succ, runIter_not_complete cfg env 0 _ hnc, hnext]
    simp only []
    rw [runLoop_zero, hmax, htotal1]
    refine ⟨rfl, ⟨evs, rfl⟩, ?_⟩
    simp only []
    rw [hsteps]
    rfl

theorem run_bounded_by_max_steps_witness :
    cfgOneStep.max_steps = 1 ∧ envThinking.sse 0 = .ok [.ok (deltaJson "thinking...")] ∧
    joinAll (reasoningTokens [.ok (deltaJson "thinking...")]) = "thinking..." ∧
    rustTrim "thinking..." ≠ "" ∧
    containsStr (toLowerStr "thinking...") "final answer:" = false ∧
    ((run_agent_stream cfgOneStep envThinking (AgentState.new "q")).outcome =
        .done (.ok ()) ∧
      (∃ es, (run_agent_stream cfgOneStep envThinking (AgentState.new "q")).events =
        .started 1 (cfgOneStep.tools.map (fun p => p.1)) ::
          (es ++ [.error (maxStepsMsg 1), .completed false 1])) ∧
      (run_agent_stream cfgOneStep envThinking
          (AgentState.new "q")).state.reasoning_steps = ["thinking..."]) :=
  ⟨rfl, rfl, rfl, by decide, by decide,
    run_bounded_by_max_steps.2.2 cfgOneStep envThinking "q"
      [.ok (deltaJson "thinking...")] "thinking..." rfl rfl rfl (by decide) (by decide)
      (by
        intro e h
        have hp : parse_tool_call "thinking..." = .ok none := rfl
        rw [hp] at h
        exact Except.noConfusion h)⟩

/-- An environment whose single reasoning phase yields exactly
`"... Final Answer: 42"`. -/
def envFinal42 : RunEnv :=
  { sse := fun _ => .ok [.ok (deltaJson "... Final Answer: 42")],
    timedOut := fun _ => false }

/-- C7: when a completed reasoning step's text contains the
case-insensitive `final answer:` marker with non-empty trailing text, the
run emits a `finalAnswer` event with the trimmed text after the marker and
a successful completion event on that same step, and performs no further
reasoning phase; on the text `"... Final Answer: 42"` the answer is
`"42"`. -/
theorem final_answer_completes_run :
    (∀ (cfg : AgentCfg) (env : RunEnv) (st : AgentState)
        (items : List (Except String String)) (full : String) (pos : Nat)
        (ans : String) (fuel : Nat),
      cfg.max_steps = fuel + 1 → st.is_complete = false → env.sse 0 = .ok items →
      joinAll (reasoningTokens items) = full →
      findSubIdx (toLowerStr full) "final answer:" = some pos →
      rustTrim ⟨full.data.drop (pos + "final answer:".data.length)⟩ = ans →
      ans ≠ "" →
      run_agent_stream cfg env st =
        { events := .started cfg.max_steps (cfg.tools.map (fun p => p.1)) ::
            ((reasoningTokens items).map AgentEvent.reasoningToken ++
             [.reasoningStepDone full, .finalAnswer ans,
              .completed true (st.metadata.total_steps + 1)]),
          state := st.add_step full, outcome := .done (.ok ()) }) ∧
    (run_agent_stream cfgNoTools envFinal42 (AgentState.new "q")).events =
      [.started 3 [], .reasoningToken "... Final Answer: 42",
       .reasoningStepDone "... Final Answer: 42", .finalAnswer "42",
       .completed true 1] := by
  constructor
  · intro cfg env st items full pos ans fuel hmax hnc hsse hfull hpos hans hne
    have hmark : containsStr (toLowerStr full) "final answer:" = true := by
      unfold containsStr
      rw [hpos]
      rfl
    have hextract : extract_final_answer full = some ans := by
      unfold extract_final_answer
      rw [hpos]
      simp only []
      rw [hans, if_neg hne]
    unfold run_agent_stream
    rw [hmax, runLoop_succ, runIter_not_complete cfg env 0 st hnc,
        runReason_answer cfg env 0 st items full ans hsse hfull hmark hextract]
  · rfl

theorem final_answer_completes_run_witness :
    cfgNoTools.max_steps = 2 + 1 ∧ (AgentState.new "q").is_complete = false ∧
    envFinal42.sse 0 = .ok [.ok (deltaJson "... Final Answer: 42")] ∧
    joinAll (reasoningTokens [.ok (deltaJson "... Final Answer: 42")]) =
      "... Final Answer: 42" ∧
    findSubIdx (toLowerStr "... Final Answer: 42") "final answer:" = some 4 ∧
    rustTrim ⟨("... Final Answer: 42" : String).data.drop
      (4 + "final answer:".data.length)⟩ = "42" ∧
    run_agent_stream cfgNoTools envFinal42 (AgentState.new "q") =
      { events := .started cfgNoTools.max_steps (cfgNoTools.tools.map (fun p => p.1)) ::
          ((reasoningTokens [.ok (deltaJson "... Final Answer: 42")]).map
            AgentEvent.reasoningToken ++
           [.reasoningStepDone "... Final Answer: 42", .finalAnswer "42",
            .completed true ((AgentState.new "q").metadata.total_steps + 1)]),
        state := (AgentState.new "q").add_step "... Final Answer: 42",
        outcome := .done (.ok ()) } :=
  ⟨rfl, rfl, rfl, rfl, by decide, by decide,
    final_answer_completes_run.1 cfgNoTools envFinal42 (AgentState.new "q")
      [.ok (deltaJson "... Final Answer: 42")] "... Final Answer: 42" 4 "42" 2
      rfl rfl rfl rfl (by decide) (by decide) (by decide)⟩

/-- C8: a failing tool dispatch — unknown name, failing synchronous call,
or per-call timeout — records an error `ToolCallResult` in the run state,
emits the error and metadata events, and the loop proceeds to the next
iteration; the recorded error appears as an `Error:` observation in the
next prompt.  The last three conjuncts exhibit the three failure modes as
error results of `call_tool_with_timeout`. -/
theorem tool_failure_recovered :
    (∀ (cfg : AgentCfg) (env : RunEnv) (step : Nat) (st : AgentState)
        (items : List (Except String String)) (full : String) (tc : ToolCall)
        (tevs : List AgentEvent) (emsg : String) (fuel : Nat),
      st.is_complete = false → env.sse step = .ok items →
      joinAll (reasoningTokens items) = full → rustTrim full ≠ "" →
      containsStr (toLowerStr full) "final answer:" = false →
      parse_tool_call full = .ok (some tc) →
      call_tool_with_timeout cfg (env.timedOut step) tc = (tevs, .error emsg) →
      runLoop cfg env (fuel + 1) step st =
        (let st2 := (st.add_step full).add_tool_call
            (ToolCallResult.err tc.name tc.args emsg)
         let t := runLoop cfg env fuel (step + 1) st2
         { t with events :=
            ((reasoningTokens items).map AgentEvent.reasoningToken ++
             [.reasoningStepDone full, .toolCall tc.name tc.args] ++ tevs ++
             [.error emsg, .metadata (st.metadata.total_steps + 1)
                (st.metadata.tool_calls_count + 1)]) ++ t.events })) ∧
    (∀ (st : AgentState) (tc : ToolCall) (emsg full : String),
      st.tool_calls.length ≤ st.reasoning_steps.length →
      containsStr (build_prompt ((st.add_step full).add_tool_call
          (ToolCallResult.err tc.name tc.args emsg))) ("Error: " ++ emsg) = true) ∧
    (∀ (cfg : AgentCfg) (tc : ToolCall), findTool cfg.tools tc.name = none →
      call_tool_with_timeout cfg false tc =
        ([.error (unknownToolMsg tc.name)], .error (unknownToolMsg tc.name))) ∧
    (∀ (cfg : AgentCfg) (tc : ToolCall),
      call_tool_with_timeout cfg true tc = ([], .error (timeoutMsg cfg.timeout_secs))) ∧
    (∀ (cfg : AgentCfg) (tc : ToolCall) (tool : ToolModel) (e : String),
      findTool cfg.tools tc.name = some tool → tool.supports_stream = false →
      tool.call tc.args = .error e →
      call_tool_with_timeout cfg false tc = ([], .error e)) := by
  refine ⟨?_, ?_, ?_, ?_, ?_⟩
  · intro cfg env step st items full tc tevs emsg fuel hnc hsse hfull htrim hmark
      hparse hcall
    rw [runLoop_succ, runIter_not_complete cfg env step st hnc,
        runReason_tool_error cfg env step st items full tc tevs emsg
          hsse hfull htrim hmark hparse hcall]
  · intro st tc emsg full halign
    apply prompt_error_observation _ st.tool_calls.length tc emsg
    · simp only [AgentState.add_step, AgentState.add_tool_call, List.length_append,
        List.length_singleton]
      omega
    · simp only [AgentState.add_step, AgentState.add_tool_call]
      exact List.getElem?_concat_length st.tool_calls _
  · intro cfg tc h
    unfold call_tool_with_timeout
    rw [if_neg (by simp)]
    unfold call_tool
    rw [h]
  · intro cfg tc
    rfl
  · intro cfg tc tool e hfind hstream hcall
    unfold call_tool_with_timeout
    rw [if_neg (by simp)]
    unfold call_tool
    rw [hfind]
    simp only []
    rw [hstream]
    simp only [Bool.false_eq_true, if_false]
    unfold syncCall
    rw [hcall]

/-- The reasoning text of the C8 witness run: a bare tool-call JSON naming
an unregistered tool. -/
def unknownToolText : String :=
  "\x7b\"tool\":\"missing\",\"args\":null\x7d"

/-- Delta payload whose content is `unknownToolText` (quotes and
backslashes JSON-escaped). -/
def unknownToolDelta : String :=
  "\x7b\"choices\":[\x7b\"delta\":\x7b\"content\":\"\x7b\\\"tool\\\":\\\"missing\\\",\\\"args\\\":null\x7d\"\x7d\x7d]\x7d"

/-- An environment whose single reasoning phase requests the unregistered
tool `missing`. -/
def envUnknownTool : RunEnv :=
  { sse := fun _ => .ok [.ok unknownToolDelta], timedOut := fun _ => false }

theorem tool_failure_recovered_witness :
    (AgentState.new "q").is_complete = false ∧
    envUnknownTool.sse 0 = .ok [.ok unknownToolDelta] ∧
    joinAll (reasoningTokens [.ok unknownToolDelta]) = unknownToolText ∧
    rustTrim unknownToolText ≠ "" ∧
    containsStr (toLowerStr unknownToolText) "final answer:" = false ∧
    parse_tool_call unknownToolText =
      .ok (some { name := "missing", args := .null }) ∧
    call_tool_with_timeout cfgNoTools (envUnknownTool.timedOut 0)
        { name := "missing", args := .null } =
      ([.error (unknownToolMsg "missing")], .error (unknownToolMsg "missing")) ∧
    runLoop cfgNoTools envUnknownTool (0 + 1) 0 (AgentState.new "q") =
      (let st2 := ((AgentState.new "q").add_step unknownToolText).add_tool_call
          (ToolCallResult.err "missing" Value.null (unknownToolMsg "missing"))
       let t := runLoop cfgNoTools envUnknownTool 0 (0 + 1) st2
       { t with events :=
          ((reasoningTokens [.ok unknownToolDelta]).map AgentEvent.reasoningToken ++
           [.reasoningStepDone unknownToolText,
            .toolCall "missing" Value.null] ++
           [.error (unknownToolMsg "missing")] ++
           [.error (unknownToolMsg "missing"),
            .metadata ((AgentState.new "q").metadata.total_steps + 1)
              ((AgentState.new "q").metadata.tool_calls_count + 1)]) ++ t.events }) :=
  ⟨rfl, rfl, rfl, by decide, by decide, rfl, rfl,
    tool_failure_recovered.1 cfgNoTools envUnknownTool 0 (AgentState.new "q")
      [.ok unknownToolDelta] unknownToolText
      { name := "missing", args := .null } [.error (unknownToolMsg "missing")]
      (unknownToolMsg "missing") 0 rfl rfl rfl (by decide) (by decide) rfl rfl⟩

theorem parse_tool_call_priority_order_witness :
    parse_tool_call "reasoning \x7b\"tool\":\"calc\",\"args\":\x7b\"n\":1\x7d\x7d done" =
      .ok (some { name := "calc", args := .obj [("n", .num "1")] }) ∧
    (some { name := "calc", args := Value.obj [("n", .num "1")] } : Option ToolCall) =
      extract_tool_call_spec "reasoning \x7b\"tool\":\"calc\",\"args\":\x7b\"n\":1\x7d\x7d done" :=
  ⟨rfl,
    parse_tool_call_priority_order.1
      "reasoning \x7b\"tool\":\"calc\",\"args\":\x7b\"n\":1\x7d\x7d done"
      (some { name := "calc", args := .obj [("n", .num "1")] }) rfl⟩

end OpenAgent
